import Mathlib

/-!
Verification development for the Juncture essay converter (`utils/convert.py`).

The Python source is shallowly embedded: pure functions become Lean
functions, the module-level mutable registries become explicitly threaded
`Registry` state, and exceptions become `Except`/`Option` results.  The
regular-expression driven scanners of the source are embedded as
deterministic character-list scanners that implement the leftmost,
greedy/lazy backtracking semantics of Python's `re` for the concrete
patterns appearing in the source.
-/

/-! ## Character classes -/

/-- The brace, backtick and quote characters, named to keep them out of
string/character literals in scanning code. -/
def lbrace : Char := Char.ofNat 123

def rbrace : Char := Char.ofNat 125

def btick : Char := Char.ofNat 96

def dquote : Char := Char.ofNat 34

def squote : Char := Char.ofNat 39

/-- Whitespace for `shlex`: exactly the four characters of
`shlex.whitespace = ' \t\r\n'`. -/
def isShlexWs (c : Char) : Bool :=
  c = ' ' || c = '\t' || c = '\r' || c = '\n'

/-- Unicode whitespace, as matched by Python's `str.split()` /
`str.strip()` and by `\s` in `re` patterns over `str`. -/
def isPyWs (c : Char) : Bool :=
  c = ' ' || c = '\t' || c = '\n' || c = '\r' || c = '\x0b' || c = '\x0c' ||
  (0x1c ≤ c.toNat && c.toNat ≤ 0x1f) || c.toNat = 0x85 || c.toNat = 0xa0 ||
  c.toNat = 0x1680 || (0x2000 ≤ c.toNat && c.toNat ≤ 0x200a) ||
  c.toNat = 0x2028 || c.toNat = 0x2029 || c.toNat = 0x202f ||
  c.toNat = 0x205f || c.toNat = 0x3000

/-- The class `[ \t]` used by several patterns in the source. -/
def isBlankCh (c : Char) : Bool := c = ' ' || c = '\t'

/-- Word characters for `\w` / `\b` (ASCII portion; the documents handled
by the converter use ASCII directive syntax). -/
def isPyWordCh (c : Char) : Bool := c.isAlphanum || c = '_'

/-! ## Small string helpers -/

/-- Drop leading and trailing characters satisfying `p`
(Python `str.strip(chars)`). -/
def stripChars (p : Char → Bool) (l : List Char) : List Char :=
  ((l.dropWhile p).reverse.dropWhile p).reverse

def isQuoteCh (c : Char) : Bool := c = dquote || c = squote

/-- Python `str.strip()` on a character list. -/
def pyStripL (l : List Char) : List Char := stripChars isPyWs l

/-- Python `str.strip()`. -/
def pyStrip (s : String) : String := String.mk (pyStripL s.toList)

/-- Python `str.split()` (split on runs of whitespace, no empty parts). -/
def pySplitGo : List Char → List Char → List (List Char)
  | [], cur => if cur.isEmpty then [] else [cur.reverse]
  | c :: rest, cur =>
    if isPyWs c then
      if cur.isEmpty then pySplitGo rest [] else cur.reverse :: pySplitGo rest []
    else pySplitGo rest (c :: cur)

def pySplit (s : String) : List String := (pySplitGo s.toList []).map String.mk

/-- Python `str.split('\n')`. -/
def splitNl : List Char → List (List Char)
  | [] => [[]]
  | c :: rest =>
    if c = '\n' then [] :: splitNl rest
    else
      match splitNl rest with
      | l :: ls => (c :: l) :: ls
      | [] => [[c]]

/-- `s.startswith('#')`. -/
def strStartsHash (s : String) : Bool :=
  match s.toList with
  | c :: _ => c = '#'
  | [] => false

/-- `s[1:]`. -/
def strTail (s : String) : String := String.mk (s.toList.drop 1)

/-! ## The shlex tokenizer (`shlex.shlex(s, posix=True)` with
`whitespace_split = True`, `commenters = ''`)

State machine transcribed from CPython's `shlex.read_token`:
`.ws` is state `' '`, `.word` is state `'a'`, `.inSingle`/`.inDouble` are
the quote states, and `.escWord`/`.escDouble` are the escape state
together with its `escapedstate`.  `none` models the `ValueError` raised
on an unterminated quote ("No closing quotation") or a trailing escape
("No escaped character"). -/

inductive SMode where
  | ws : SMode
  | word : SMode
  | inSingle : SMode
  | inDouble : SMode
  | escWord : SMode
  | escDouble : SMode

/-- Emit a finished token: in posix mode an empty token is dropped unless
some part of it was quoted. -/
def emitTok (cur : List Char) (quoted : Bool) (acc : List (List Char)) : List (List Char) :=
  if cur.isEmpty && !quoted then acc else acc ++ [cur.reverse]

def shlexGo : List Char → SMode → List Char → Bool → List (List Char) →
    Option (List (List Char))
  | [], .ws, _cur, _q, acc => some acc
  | [], .word, cur, q, acc => some (emitTok cur q acc)
  | [], .inSingle, _, _, _ => none
  | [], .inDouble, _, _, _ => none
  | [], .escWord, _, _, _ => none
  | [], .escDouble, _, _, _ => none
  | c :: rest, .ws, cur, q, acc =>
    if isShlexWs c then shlexGo rest .ws cur q acc
    else if c = '\\' then shlexGo rest .escWord cur q acc
    else if c = squote then shlexGo rest .inSingle cur true acc
    else if c = dquote then shlexGo rest .inDouble cur true acc
    else shlexGo rest .word (c :: cur) q acc
  | c :: rest, .word, cur, q, acc =>
    if isShlexWs c then shlexGo rest .ws [] false (emitTok cur q acc)
    else if c = '\\' then shlexGo rest .escWord cur q acc
    else if c = squote then shlexGo rest .inSingle cur true acc
    else if c = dquote then shlexGo rest .inDouble cur true acc
    else shlexGo rest .word (c :: cur) q acc
  | c :: rest, .inSingle, cur, q, acc =>
    if c = squote then shlexGo rest .word cur q acc
    else shlexGo rest .inSingle (c :: cur) q acc
  | c :: rest, .inDouble, cur, q, acc =>
    if c = dquote then shlexGo rest .word cur q acc
    else if c = '\\' then shlexGo rest .escDouble cur q acc
    else shlexGo rest .inDouble (c :: cur) q acc
  | c :: rest, .escWord, cur, q, acc => shlexGo rest .word (c :: cur) q acc
  | c :: rest, .escDouble, cur, q, acc =>
    if c = '\\' || c = dquote then shlexGo rest .inDouble (c :: cur) q acc
    else shlexGo rest .inDouble (c :: '\\' :: cur) q acc

/-- `list(lexer)` for the configured shlex lexer; `none` is the
`ValueError` escape hatch. -/
def shlexTokens (s : String) : Option (List String) :=
  (shlexGo s.toList .ws [] false []).map (List.map String.mk)

/-! ## Attribute maps (Python dicts with insertion order) -/

/-- A Python dict from attribute name to value; `none` values are
Python's `None` (bare flags). -/
abbrev AttrMap := List (String × Option String)

/-- `d[k] = v`: update in place if the key exists, else append. -/
def pyInsert (m : AttrMap) (k : String) (v : Option String) : AttrMap :=
  if m.any (fun p => p.1 == k) then
    m.map (fun p => if p.1 == k then (p.1, v) else p)
  else m ++ [(k, v)]

/-- `k in d`. -/
def containsA (m : AttrMap) (k : String) : Bool := m.any (fun p => p.1 == k)

/-- `d.get(k)` distinguishing "absent" from "present with value None". -/
def lookupA (m : AttrMap) (k : String) : Option (Option String) :=
  match m.find? (fun p => p.1 == k) with
  | some p => some p.2
  | none => none

/-- `d[k]` where the key is known (or assumed) present; an absent key
yields `none`, matching a bare-flag `None` value. -/
def lookupVal (m : AttrMap) (k : String) : Option String :=
  match lookupA m k with
  | some v => v
  | none => none

/-- `token.split('=', 1)` when `'=' in token`. -/
def splitEqOnce (t : List Char) : Option (List Char × List Char) :=
  if t.contains '=' then
    some (t.takeWhile (fun c => c ≠ '='), (t.dropWhile (fun c => c ≠ '=')).drop 1)
  else none

/-- One iteration of the token loop of `to_dict`. -/
def insTok (attrs : AttrMap) (token : String) : AttrMap :=
  match splitEqOnce token.toList with
  | some (k, v) => pyInsert attrs (String.mk k) (some (String.mk (stripChars isQuoteCh v)))
  | none => pyInsert attrs token none

/-- `to_dict(s)`: parse a `key=value` attribute string into a dict.
The second component is the list of diagnostics: on a lexer `ValueError`
exactly one diagnostic carrying the offending text `s` is emitted (the
source prints a three-line warning containing `s`) and the tokens come
from a plain whitespace split.  All call sites use the default
`warn=True`. -/
def to_dict (s : String) : AttrMap × List String :=
  match shlexTokens s with
  | some tokens => (tokens.foldl insTok [], [])
  | none => ((pySplit s).foldl insTok [], [s])

/-! ## The unrecognized-attribute registries -/

/-- One registry namespace: a Python dict from attribute name to count. -/
abbrev Registry := List (String × Nat)

/-- `if attr not in d: d[attr] = 0` followed by `d[attr] += 1`. -/
def bumpAttr (r : Registry) (k : String) : Registry :=
  if r.any (fun p => p.1 == k) then
    r.map (fun p => if p.1 == k then (p.1, p.2 + 1) else p)
  else r ++ [(k, 1)]

def lookupCount (r : Registry) (k : String) : Nat :=
  match r.find? (fun p => p.1 == k) with
  | some p => p.2
  | none => 0

/-- The `for attr in attrs: if attr not in recognized: …` loop shared by
`convert_image_tag` and `convert_map_block`. -/
def recordUnrecognized (recognized : List String) (attrs : AttrMap) (r : Registry) : Registry :=
  attrs.foldl (fun r p => if recognized.contains p.1 then r else bumpAttr r p.1) r

/-! ## Include-string emission -/

/-- f-string rendering of a value: Python renders `None` as `"None"`. -/
def valueStr : Option String → String
  | some v => v
  | none => "None"

/-- The `#`-shorthand loop: every key starting with `#` contributes
`id="<key minus #>" ` in insertion order. -/
def hashIdPart : AttrMap → String
  | [] => ""
  | p :: rest =>
    (if strStartsHash p.1 then "id=\"" ++ strTail p.1 ++ "\" " else "") ++ hashIdPart rest

/-- Canonical-order emission guarded by presence only
(`if attr in attrs`), as in `convert_image_tag` and the map tag loop. -/
def emitPresence : List String → AttrMap → String
  | [], _ => ""
  | k :: rest, attrs =>
    (if containsA attrs k then k ++ "=\"" ++ valueStr (lookupVal attrs k) ++ "\" " else "") ++
      emitPresence rest attrs

def truthyVal : Option String → Bool
  | some v => !v.toList.isEmpty
  | none => false

/-- Canonical-order emission guarded by truthiness
(`if attr in attrs and attrs[attr]`), as in `convert_image_compare_tag`
and `convert_iframe_tag`. -/
def emitTruthy : List String → AttrMap → String
  | [], _ => ""
  | k :: rest, attrs =>
    (if containsA attrs k && truthyVal (lookupVal attrs k) then
      k ++ "=\"" ++ valueStr (lookupVal attrs k) ++ "\" "
    else "") ++ emitTruthy rest attrs

/-- The youtube loop: like `emitTruthy` but `vid` is emitted under the
output name `id`. -/
def emitYoutube : List String → AttrMap → String
  | [], _ => ""
  | k :: rest, attrs =>
    (if containsA attrs k && truthyVal (lookupVal attrs k) then
      (if k = "vid" then "id" else k) ++ "=\"" ++ valueStr (lookupVal attrs k) ++ "\" "
    else "") ++ emitYoutube rest attrs

/-- The map tag-line loop: like `emitPresence` but `basemaps` is emitted
under the output name `basemap`. -/
def emitMapKeys : List String → AttrMap → String
  | [], _ => ""
  | k :: rest, attrs =>
    (if containsA attrs k then
      (if k = "basemaps" then "basemap" else k) ++ "=\"" ++ valueStr (lookupVal attrs k) ++ "\" "
    else "") ++ emitMapKeys rest attrs

/-! ## Inline tag converters -/

def imageRecognized : List String :=
  ["id", "src", "manifest", "seq", "caption", "attribution", "description", "label",
   "license", "source", "cover", "region", "rotation", "aspect"]

/-- The tag-building part of `convert_image_tag` on the parsed
attribute map. -/
def imageTagOf (attrs : AttrMap) : String :=
  "\x7b% include embed/image.html " ++ hashIdPart attrs ++
    emitPresence imageRecognized attrs ++ "class=\"right\" %\x7d"

/-- `convert_image_tag`: builds the include string and records
unrecognized attribute names in the image registry namespace. -/
def convert_image_tag (attrs_str : String) (reg : Registry) : String × Registry :=
  let attrs := (to_dict attrs_str).1
  let reg := recordUnrecognized imageRecognized attrs reg
  (imageTagOf attrs, reg)

/-- `convert_image_compare_tag`: builds the include string; the source
function does not touch either registry, so the registry passes through
unchanged. -/
def convert_image_compare_tag (attrs_str : String) (reg : Registry) : String × Registry :=
  let attrs := (to_dict attrs_str).1
  ("\x7b% include embed/image-compare.html " ++ hashIdPart attrs ++
    emitTruthy ["id", "before", "after", "caption", "aspect"] attrs ++
    "class=\"right\" %\x7d", reg)

/-- `convert_iframe_tag`: registry untouched by the source. -/
def convert_iframe_tag (attrs_str : String) (reg : Registry) : String × Registry :=
  let attrs := (to_dict attrs_str).1
  ("\x7b% include embed/iframe.html " ++ hashIdPart attrs ++
    emitTruthy ["id", "src", "caption", "aspect"] attrs ++
    "class=\"right\" %\x7d", reg)

/-- The tag-building part of `convert_youtube_tag` on the parsed
attribute map. -/
def youtubeTagOf (attrs : AttrMap) : String :=
  "\x7b% include embed/youtube.html " ++ hashIdPart attrs ++
    emitYoutube ["id", "vid", "caption", "aspect"] attrs ++
    "class=\"right\" %\x7d"

/-- `convert_youtube_tag`: registry untouched by the source; `vid` is
renamed to `id` on output. -/
def convert_youtube_tag (attrs_str : String) (reg : Registry) : String × Registry :=
  let attrs := (to_dict attrs_str).1
  (youtubeTagOf attrs, reg)

/-! ## The map block converter -/

/-- `line.strip()[1:-1]`: remove surrounding whitespace, then the
surrounding backticks. -/
def tickStrip (l : List Char) : List Char := ((pyStripL l).drop 1).dropLast

def mapTagRecognized : List String :=
  ["id", "center", "zoom", "basemap", "basemaps", "caption", "aspect"]

def mapLineRecognized : List String := ["url", "layer"]

/-- Build one marker token: `marker = ''`, `marker = line_attrs['qid']` if
present (a bare-flag `None` value makes every later string operation on
`marker` raise `TypeError`, modelled by `none`), then
`marker += '~' + layer` if a `layer` key is present. -/
def buildMarker (la : AttrMap) : Option String :=
  let m0 : Option String := if containsA la "qid" then lookupVal la "qid" else some ""
  if containsA la "layer" then
    m0.map (fun m => m ++ "~" ++ valueStr (lookupVal la "layer"))
  else m0

/-- Build one geojson token, analogously from `url` and `layer`. -/
def buildGeojson (la : AttrMap) : Option String :=
  let g0 : Option String := if containsA la "url" then lookupVal la "url" else some ""
  if containsA la "layer" then
    g0.map (fun g => g ++ "~" ++ valueStr (lookupVal la "layer"))
  else g0

/-- Processing of one continuation line of a map block: record
unrecognized attribute names, then accumulate marker/geojson tokens. -/
def mapSubLineStep (st : List (Option String) × List (Option String) × Registry)
    (line : List Char) : List (Option String) × List (Option String) × Registry :=
  let la := (to_dict (String.mk line)).1
  let reg := recordUnrecognized mapLineRecognized la st.2.2
  let markers := if containsA la "marker" then st.1 ++ [buildMarker la] else st.1
  let geojsons := if containsA la "geojson" then st.2.1 ++ [buildGeojson la] else st.2.1
  (markers, geojsons, reg)

/-- Flatten a token list; a `None` element makes `'|'.join` raise
`TypeError` in the source, modelled by `none`. -/
def seqOpt : List (Option String) → Option (List String)
  | [] => some []
  | none :: _ => none
  | some v :: rest => (seqOpt rest).map (fun l => v :: l)

/-- `'|'.join(l)`. -/
def joinBar : List String → String
  | [] => ""
  | [v] => v
  | v :: rest => v ++ "|" ++ joinBar rest

/-- `convert_map_block(block)`: the first component is the replacement
include string (`none` models the `TypeError` escaping from the marker /
geojson string operations on bare-flag values), the second the updated
map registry namespace. -/
def convert_map_block (block : String) (reg : Registry) : Option String × Registry :=
  let lines := (splitNl block.toList).map tickStrip
  match lines with
  | [] => (none, reg)
  | tagLine :: subLines =>
    let tag_attrs := (to_dict (String.mk tagLine)).1
    let reg := recordUnrecognized mapTagRecognized tag_attrs reg
    let st := subLines.foldl mapSubLineStep ([], [], reg)
    match seqOpt st.1, seqOpt st.2.1 with
    | some ms, some gs =>
      (some ("\x7b% include embed/map.html " ++ hashIdPart tag_attrs ++
        emitMapKeys mapTagRecognized tag_attrs ++
        (if ms.isEmpty then "" else "markers=\"" ++ joinBar ms ++ "\" ") ++
        (if gs.isEmpty then "" else "geojson=\"" ++ joinBar gs ++ "\" ") ++
        "class=\"right\" %\x7d"), st.2.2)
    | _, _ => (none, st.2.2)

/-! ## Header extraction (`HEADER_TAG_RE`, `ATTR_RE`, `extract_header_tag`) -/

/-- Header attribute maps: `ATTR_RE` always produces string values. -/
abbrev HeaderMap := List (String × String)

/-- `d[k] = v` for string-valued dicts. -/
def pyInsertS (m : HeaderMap) (k v : String) : HeaderMap :=
  if m.any (fun p => p.1 == k) then
    m.map (fun p => if p.1 == k then (p.1, v) else p)
  else m ++ [(k, v)]

def lookupS (m : HeaderMap) (k : String) : Option String :=
  match m.find? (fun p => p.1 == k) with
  | some p => some p.2
  | none => none

/-- Attempt to match `ATTR_RE` = `(\w+)=(?:"([^"]*)"|'([^']*)'|([^\s]+))`
anchored at `cs`; on success returns key, value and the remainder after
the match.  The alternatives are tried in pattern order; an unterminated
quoted value falls through to the `[^\s]+` alternative starting at the
quote character, exactly as the regex backtracks. -/
def attrMatchAt (cs : List Char) : Option (String × String × List Char) :=
  let w := cs.takeWhile isPyWordCh
  let r1 := cs.dropWhile isPyWordCh
  if w.isEmpty then none
  else
    match r1 with
    | '=' :: r2 =>
      let unquoted : Option (String × String × List Char) :=
        let v := r2.takeWhile (fun c => !isPyWs c)
        if v.isEmpty then none
        else some (String.mk w, String.mk v, r2.drop v.length)
      match r2 with
      | c :: r3 =>
        if c = dquote then
          let v := r3.takeWhile (fun d => d ≠ dquote)
          match r3.dropWhile (fun d => d ≠ dquote) with
          | _ :: r4 => some (String.mk w, String.mk v, r4)
          | [] => unquoted
        else if c = squote then
          let v := r3.takeWhile (fun d => d ≠ squote)
          match r3.dropWhile (fun d => d ≠ squote) with
          | _ :: r4 => some (String.mk w, String.mk v, r4)
          | [] => unquoted
        else unquoted
      | [] => none
    | _ => none

/-- `ATTR_RE.findall` over the attribute text combined with the
`attrs[key] = v1 or v2 or v3` loop: scan left to right, restart one
character later on failure (fuel-driven; fuel = input length suffices). -/
def attrScanGo : Nat → List Char → HeaderMap → HeaderMap
  | 0, _, m => m
  | _ + 1, [], m => m
  | fuel + 1, c :: cs, m =>
    match attrMatchAt (c :: cs) with
    | some (k, v, rest) => attrScanGo fuel rest (pyInsertS m k v)
    | none => attrScanGo fuel cs m

/-- The attribute loop of `extract_header_tag` over a match's attribute
text. -/
def attrScan (a : String) : HeaderMap := attrScanGo a.toList.length a.toList []

/-- Attempt to match `HEADER_TAG_RE` = `` `header\b([^`]*)` `` anchored at
`cs`; returns the attribute text and the remainder after the match. -/
def tryHeaderAt (cs : List Char) : Option (List Char × List Char) :=
  match cs with
  | c :: r0 =>
    if c = btick then
      if r0.take 6 = ['h', 'e', 'a', 'd', 'e', 'r'] then
        let r6 := r0.drop 6
        let bOk := match r6 with
          | [] => true
          | d :: _ => !isPyWordCh d
        if bOk then
          let a := r6.takeWhile (fun d => d ≠ btick)
          match r6.dropWhile (fun d => d ≠ btick) with
          | _ :: post => some (a, post)
          | [] => none
        else none
      else none
    else none
  | [] => none

/-- `HEADER_TAG_RE.search`: first position at which the pattern matches,
returning the text before the match, the attribute text, and the text
after the match. -/
def findHeaderGo : List Char → Option (List Char × List Char × List Char)
  | [] => none
  | c :: rest =>
    match tryHeaderAt (c :: rest) with
    | some (a, post) => some ([], a, post)
    | none =>
      match findHeaderGo rest with
      | some (pre, a, post) => some (c :: pre, a, post)
      | none => none

/-- `extract_header_tag(md)`: parse and remove the first `header`
directive; without one, return the empty map and the original text. -/
def extract_header_tag (md : String) : HeaderMap × String :=
  match findHeaderGo md.toList with
  | none => ([], md)
  | some (pre, a, post) => (attrScan (String.mk a), String.mk (pre ++ post))

/-! ## Front matter (`_FRONT_MATTER_RE`, yaml, splitting, serializing) -/

/-- Attempt to match the closing delimiter `\n---[ \t]*(?:\n|\Z)`
anchored at `cs`; returns the remainder after the whole front-matter
match. -/
def fmCloserAt (cs : List Char) : Option (List Char) :=
  match cs with
  | '\n' :: '-' :: '-' :: '-' :: r1 =>
    let r2 := r1.dropWhile isBlankCh
    match r2 with
    | '\n' :: r3 => some r3
    | [] => some []
    | _ => none
  | _ => none

/-- The lazy `(?P<yaml>.*?)` group: the yaml text runs to the earliest
position where the closing delimiter matches. -/
def fmScanYaml : List Char → Option (List Char × List Char)
  | [] => none
  | c :: rest =>
    match fmCloserAt (c :: rest) with
    | some r => some ([], r)
    | none =>
      match fmScanYaml rest with
      | some (y, r) => some (c :: y, r)
      | none => none

/-- `_FRONT_MATTER_RE.search` (the pattern is anchored with `\A`):
returns the yaml text and the text after the match. -/
def matchFM (cs : List Char) : Option (List Char × List Char) :=
  let cs1 := match cs with
    | c :: r => if c = '﻿' then r else cs
    | [] => cs
  match cs1 with
  | '-' :: '-' :: '-' :: r1 =>
    let r2 := r1.dropWhile isBlankCh
    match r2 with
    | '\n' :: r3 => fmScanYaml r3
    | _ => none
  | _ => none

/-- Yaml values as produced by the loader. -/
inductive Yaml where
  | nullV : Yaml
  | strV : String → Yaml
  | listV : List Yaml → Yaml
  | mapV : List (String × Yaml) → Yaml

abbrev FrontMatter := List (String × Yaml)

/-- Modelled from the spec: `yaml.load(..., Loader=NoDatesSafeLoader)` is
the external pyyaml library (not part of this repository's sources), with
implicit timestamp resolution disabled so date-shaped scalars stay
strings.  The model covers the flat documents this development evaluates
it on: an all-blank payload is `None`, a payload of `- item` lines is a
sequence, a payload of `key: value` lines is a mapping, and anything else
is a plain scalar. -/
def yamlLoad (s : String) : Yaml :=
  let lines := ((splitNl s.toList).map pyStripL).filter (fun l => !l.isEmpty)
  match lines with
  | [] => .nullV
  | l :: _ =>
    if l.head? = some '-' then
      .listV (lines.map (fun ln => .strV (String.mk (pyStripL (ln.drop 1)))))
    else if lines.all (fun ln => ln.contains ':') then
      .mapV (lines.map (fun ln =>
        (String.mk (ln.takeWhile (fun c => c ≠ ':')),
         .strV (String.mk (pyStripL ((ln.dropWhile (fun c => c ≠ ':')).drop 1))))))
    else .strV (String.mk l)

/-- `extract_front_matter(md_text)`: no front-matter block yields `{}`;
a `None` payload yields `{}`; a non-mapping payload raises
`ValueError("Front matter must be a mapping")`, modelled as `Except.error`
(the `yaml.YAMLError` branch raises likewise; the modelled loader is
total, so that branch is vacuous here). -/
def extract_front_matter (md : String) : Except String FrontMatter :=
  match matchFM md.toList with
  | none => .ok []
  | some (rawYaml, _) =>
    match yamlLoad (String.mk rawYaml) with
    | .nullV => .ok []
    | .mapV m => .ok m
    | _ => .error "Front matter must be a mapping"

/-- `split_front_matter(md_text)`: `({}, original)` without front matter,
else the parsed mapping and the text after the block; parse errors
propagate. -/
def split_front_matter (md : String) : Except String (FrontMatter × String) :=
  match matchFM md.toList with
  | none => .ok ([], md)
  | some (_, rest) =>
    match extract_front_matter md with
    | .ok fm => .ok (fm, String.mk rest)
    | .error e => .error e

/-- Rendering of a yaml value on one line (of the shapes stored by the
converter). -/
def yamlValStr : Yaml → String
  | .nullV => "null"
  | .strV s => s
  | .listV _ => "[...]"
  | .mapV m => String.join (m.map (fun kv => "\n  " ++ kv.1 ++ ": " ++
      (match kv.2 with
       | .strV s => s
       | _ => "...")))

/-- Modelled from the spec: `front_matter_to_str` calls the external
pyyaml `safe_dump(fm, sort_keys=False, default_flow_style=False,
allow_unicode=True)`; on the empty mapping pyyaml emits the flow form
`"\x7b\x7d\n"`, and on non-empty mappings one `key: value` block line per
key in insertion order. -/
def front_matter_to_str (fm : FrontMatter) : String :=
  if fm.isEmpty then "\x7b\x7d\n"
  else String.join (fm.map (fun kv => kv.1 ++ ": " ++ yamlValStr kv.2 ++ "\n"))

/-! ## The directive substitution passes of `convert_params` -/

/-- The two separator shapes of the inline directive patterns:
`` `image\s+\b([^`]*)` `` requires at least one whitespace character and
then (by the word boundary after `\s+`) a word character, the group
starting there; `` `image-compare\b([^`]*)` `` and the iframe / youtube
patterns require a non-word character (or the closing backtick) right
after the keyword, the group starting there. -/
inductive SepKind where
  | wsThenWord : SepKind
  | boundary : SepKind

/-- Shared tail of an inline match: the greedy `[^`]*` group followed by
the closing backtick. -/
def closeTick (r : List Char) : Option (List Char × List Char) :=
  let a := r.takeWhile (fun d => d ≠ btick)
  match r.dropWhile (fun d => d ≠ btick) with
  | _ :: post => some (a, post)
  | [] => none

/-- Attempt to match an inline directive pattern anchored at `cs`;
returns the group text and the remainder after the match. -/
def inlineMatchAt (kw : List Char) (sep : SepKind) (cs : List Char) :
    Option (List Char × List Char) :=
  match cs with
  | c :: r0 =>
    if c = btick then
      if r0.take kw.length = kw then
        let r1 := r0.drop kw.length
        match sep with
        | .boundary =>
          let bOk := match r1 with
            | [] => true
            | d :: _ => !isPyWordCh d
          if bOk then closeTick r1 else none
        | .wsThenWord =>
          let w := r1.takeWhile isPyWs
          let r2 := r1.dropWhile isPyWs
          if w.isEmpty then none
          else
            match r2 with
            | d :: _ => if isPyWordCh d then closeTick r2 else none
            | [] => none
      else none
    else none
  | [] => none

/-- `re.sub` for an inline directive pattern: scan left to right, replace
each match by `conv(group.strip())` threading the registry, restart after
the match (fuel-driven; fuel = input length suffices because every match
consumes at least one character). -/
def inlineSubGo (kw : List Char) (sep : SepKind)
    (conv : String → Registry → String × Registry) :
    Nat → List Char → Registry → List Char × Registry
  | 0, cs, reg => (cs, reg)
  | _ + 1, [], reg => ([], reg)
  | fuel + 1, c :: cs, reg =>
    match inlineMatchAt kw sep (c :: cs) with
    | some (a, post) =>
      let t := conv (pyStrip (String.mk a)) reg
      let rest := inlineSubGo kw sep conv fuel post t.2
      (t.1.toList ++ rest.1, rest.2)
    | none =>
      let rest := inlineSubGo kw sep conv fuel cs reg
      (c :: rest.1, rest.2)

/-- The greedy star over map continuation lines
`(?:\n`- [^\n`]*`)*`: consume as many continuation lines as match,
returning the consumed text and the remainder. -/
def mapContGo : Nat → List Char → List Char × List Char
  | 0, cs => ([], cs)
  | fuel + 1, cs =>
    match cs with
    | '\n' :: c1 :: c2 :: c3 :: r =>
      if c1 = btick ∧ c2 = '-' ∧ c3 = ' ' then
        let a := r.takeWhile (fun d => !(d = '\n' || d = btick))
        match r.drop a.length with
        | c4 :: r2 =>
          if c4 = btick then
            let more := mapContGo fuel r2
            ('\n' :: c1 :: c2 :: c3 :: (a ++ [c4] ++ more.1), more.2)
          else ([], cs)
        | [] => ([], cs)
      else ([], cs)
    | _ => ([], cs)

/-- Attempt to match `MAP_BLOCK_RE` anchored at a line start: the tag
line `` `map[^\n`]*` `` followed by the greedy star of continuation
lines; returns the whole matched block text and the remainder. -/
def mapMatchAt (cs : List Char) : Option (List Char × List Char) :=
  match cs with
  | c0 :: 'm' :: 'a' :: 'p' :: r =>
    if c0 = btick then
      let a := r.takeWhile (fun d => !(d = '\n' || d = btick))
      match r.drop a.length with
      | c1 :: r1 =>
        if c1 = btick then
          let conts := mapContGo r1.length r1
          some (c0 :: 'm' :: 'a' :: 'p' :: (a ++ [c1] ++ conts.1), conts.2)
        else none
      | [] => none
    else none
  | _ => none

/-- `MAP_BLOCK_RE.sub` with `convert_map_block`: `^`-anchored multiline
scan; a `none` from the converter is the `TypeError` propagating out of
`re.sub`.  A matched block always ends with a backtick, so scanning
resumes mid-line. -/
def mapSubGo : Nat → List Char → Bool → Registry → Option (List Char) × Registry
  | 0, cs, _, reg => (some cs, reg)
  | _ + 1, [], _, reg => (some [], reg)
  | fuel + 1, c :: cs, atStart, reg =>
    if atStart then
      match mapMatchAt (c :: cs) with
      | some (blk, rest) =>
        let t := convert_map_block (String.mk blk) reg
        match t.1 with
        | none => (none, t.2)
        | some tag =>
          let r := mapSubGo fuel rest false t.2
          match r.1 with
          | none => (none, r.2)
          | some rest' => (some (tag.toList ++ rest'), r.2)
      | none =>
        let r := mapSubGo fuel cs (c = '\n') reg
        match r.1 with
        | none => (none, r.2)
        | some rest' => (some (c :: rest'), r.2)
    else
      let r := mapSubGo fuel cs (c = '\n') reg
      match r.1 with
      | none => (none, r.2)
      | some rest' => (some (c :: rest'), r.2)

/-- `convert_params(md)`: the five substitution passes in source order
(image, image-compare, map, iframe, youtube), threading the process-wide
registries; `none` models an exception escaping from a pass (caught at
the per-document boundary in `convert`). -/
def convert_params (md : String) (reg : Registry × Registry) :
    Option String × Registry × Registry :=
  let l0 := md.toList
  let p1 := inlineSubGo "image".toList .wsThenWord convert_image_tag l0.length l0 reg.1
  let p2 := inlineSubGo "image-compare".toList .boundary convert_image_compare_tag
    p1.1.length p1.1 p1.2
  match mapSubGo p2.1.length p2.1 true reg.2 with
  | (none, mreg) => (none, p2.2, mreg)
  | (some l3, mreg) =>
    let p4 := inlineSubGo "iframe".toList .boundary convert_iframe_tag l3.length l3 p2.2
    let p5 := inlineSubGo "youtube".toList .boundary convert_youtube_tag p4.1.length p4.1 p4.2
    (some (String.mk p5.1), p5.2, mreg)

/-! ## The text normalizer `clean`

Each of the five `re.sub` passes is embedded as a scanner over the
character list; `matchX` functions implement one anchored match attempt
with the backtracking behavior of the concrete pattern, and the fuel
driven `subXGo` functions implement the left-to-right non-overlapping
scan of `re.sub` (fuel = input length suffices because every match
consumes at least one character). -/

/-- The suffix of `w` after its last newline. -/
def afterLastNl (w : List Char) : List Char :=
  (w.reverse.takeWhile (fun c => c ≠ '\n')).reverse

/-- The prefix of `w` up to (excluding) its last newline. -/
def beforeLastNl (w : List Char) : List Char :=
  ((w.reverse.dropWhile (fun c => c ≠ '\n')).drop 1).reverse

/-- Attempt to match `^[ \t]*\{\:\s*\.wrap\s*\}[ \t]*\n?` anchored at a
line start; returns the remainder and whether the optional newline was
consumed (if so, scanning resumes at a line start). -/
def matchWrap (cs : List Char) : Option (List Char × Bool) :=
  let r1 := cs.dropWhile isBlankCh
  match r1 with
  | c1 :: c2 :: r2 =>
    if c1 = lbrace ∧ c2 = ':' then
      let r3 := r2.dropWhile isPyWs
      match r3 with
      | '.' :: 'w' :: 'r' :: 'a' :: 'p' :: r4 =>
        let r5 := r4.dropWhile isPyWs
        match r5 with
        | c3 :: r6 =>
          if c3 = rbrace then
            let r7 := r6.dropWhile isBlankCh
            match r7 with
            | '\n' :: r8 => some (r8, true)
            | _ => some (r7, false)
          else none
        | [] => none
      | _ => none
    else none
  | _ => none

def subWrapGo : Nat → List Char → Bool → List Char
  | 0, cs, _ => cs
  | _ + 1, [], _ => []
  | fuel + 1, c :: cs, atStart =>
    if atStart then
      match matchWrap (c :: cs) with
      | some (rem, nl) => subWrapGo fuel rem nl
      | none => c :: subWrapGo fuel cs (c = '\n')
    else c :: subWrapGo fuel cs (c = '\n')

/-- Attempt to match `^\^[ \t]*#{1,6}[ \t]*\n?` anchored at a line start.
With more than six `#` the greedy `#{1,6}` takes six and the match ends
there (the seventh `#` is neither `[ \t]` nor `\n`). -/
def matchCaret (cs : List Char) : Option (List Char × Bool) :=
  match cs with
  | '^' :: r1 =>
    let r2 := r1.dropWhile isBlankCh
    let hs := r2.takeWhile (fun c => c = '#')
    let r3 := r2.dropWhile (fun c => c = '#')
    if hs.length = 0 then none
    else if hs.length ≤ 6 then
      let r4 := r3.dropWhile isBlankCh
      match r4 with
      | '\n' :: r5 => some (r5, true)
      | _ => some (r4, false)
    else some (hs.drop 6 ++ r3, false)
  | _ => none

def subCaretGo : Nat → List Char → Bool → List Char
  | 0, cs, _ => cs
  | _ + 1, [], _ => []
  | fuel + 1, c :: cs, atStart =>
    if atStart then
      match matchCaret (c :: cs) with
      | some (rem, nl) => subCaretGo fuel rem nl
      | none => c :: subCaretGo fuel cs (c = '\n')
    else c :: subCaretGo fuel cs (c = '\n')

/-- `RE_COLLAPSE_BLANK_LINES.sub('\n\n', ·)` for `\n\s*\n+`: at a
newline whose following maximal whitespace run contains another newline,
the match extends through the last newline of that run (greedy `\s*`
backtracking until `\n+` can match) and is replaced by two newlines. -/
def collapseGo : Nat → List Char → List Char
  | 0, cs => cs
  | _ + 1, [] => []
  | fuel + 1, c :: cs =>
    if c = '\n' then
      let w := cs.takeWhile isPyWs
      if w.contains '\n' then
        '\n' :: '\n' :: collapseGo fuel (afterLastNl w ++ cs.dropWhile isPyWs)
      else '\n' :: collapseGo fuel cs
    else c :: collapseGo fuel cs

/-- Attempt to match `^(#{1,6}\s+.+)\n(?!\s*\n)` anchored at a line
start; returns the replacement text `\1\n\n` and the remainder.  The
greedy `\s+` first takes the whole whitespace run `w`; `.+` then takes
the maximal non-newline run `m`, and the negative lookahead checks the
whitespace run after the newline that follows.  When that fails, `\s+`
backtracks: the only further candidate is ending `.+` at the last newline
of `w`, which succeeds exactly when the character before that newline
exists and is not itself a newline.  Both match shapes end with a
consumed newline, so scanning resumes at a line start. -/
def matchHeading (cs : List Char) : Option (List Char × List Char) :=
  let hs := cs.takeWhile (fun c => c = '#')
  let r1 := cs.dropWhile (fun c => c = '#')
  if hs.length < 1 ∨ 6 < hs.length then none
  else
    let w := r1.takeWhile isPyWs
    let r2 := r1.dropWhile isPyWs
    if w.length = 0 then none
    else
      let m := r2.takeWhile (fun c => c ≠ '\n')
      let primary : Option (List Char × List Char) :=
        match r2.dropWhile (fun c => c ≠ '\n') with
        | '\n' :: r4 =>
          if !m.isEmpty && !((r4.takeWhile isPyWs).contains '\n') then
            some (hs ++ w ++ m ++ ['\n', '\n'], r4)
          else none
        | _ => none
      match primary with
      | some res => some res
      | none =>
        if w.contains '\n' then
          let b := beforeLastNl w
          if !b.isEmpty && b.getLast? ≠ some '\n' then
            some (hs ++ b ++ ['\n', '\n'], afterLastNl w ++ r2)
          else none
        else none

def subHeadingGo : Nat → List Char → Bool → List Char
  | 0, cs, _ => cs
  | _ + 1, [], _ => []
  | fuel + 1, c :: cs, atStart =>
    if atStart then
      match matchHeading (c :: cs) with
      | some (out, rem) => out ++ subHeadingGo fuel rem true
      | none => c :: subHeadingGo fuel cs (c = '\n')
    else c :: subHeadingGo fuel cs (c = '\n')

/-- Attempt to match `^\s*#{1,6}\s*$` anchored at a line start; returns
the remainder and whether scanning resumes at a line start (the multiline
`$` is zero width: with a non-whitespace character after the second `\s*`
run, the match ends just before that run's last newline, which stays in
the text). -/
def matchEmptyHeading (cs : List Char) : Option (List Char × Bool) :=
  let r1 := cs.dropWhile isPyWs
  let hs := r1.takeWhile (fun c => c = '#')
  let r2 := r1.dropWhile (fun c => c = '#')
  if hs.length < 1 ∨ 6 < hs.length then none
  else
    let w2 := r2.takeWhile isPyWs
    let r3 := r2.dropWhile isPyWs
    match r3 with
    | [] => some ([], false)
    | _ =>
      if w2.contains '\n' then
        let b := beforeLastNl w2
        let lastC : Option Char := if b.isEmpty then some '#' else b.getLast?
        some ('\n' :: (afterLastNl w2 ++ r3), lastC = some '\n')
      else none

def subEmptyGo : Nat → List Char → Bool → List Char
  | 0, cs, _ => cs
  | _ + 1, [], _ => []
  | fuel + 1, c :: cs, atStart =>
    if atStart then
      match matchEmptyHeading (c :: cs) with
      | some (rem, nl) => subEmptyGo fuel rem nl
      | none => c :: subEmptyGo fuel cs (c = '\n')
    else c :: subEmptyGo fuel cs (c = '\n')

/-- `clean(text)`: the five substitutions in source order. -/
def clean (text : String) : String :=
  let l0 := text.toList
  let l1 := subWrapGo l0.length l0 true
  let l2 := subCaretGo l1.length l1 true
  let l3 := collapseGo l2.length l2
  let l4 := subHeadingGo l3.length l3 true
  let l5 := subEmptyGo l4.length l4 true
  String.mk l5

/-! ## The per-document pipeline and the batch loop of `convert` -/

/-- `fm[k] = v` for front-matter mappings. -/
def fmInsert (m : FrontMatter) (k : String) (v : Yaml) : FrontMatter :=
  if m.any (fun p => p.1 == k) then
    m.map (fun p => if p.1 == k then (p.1, v) else p)
  else m ++ [(k, v)]

/-- One source document of the walked tree: the leaf directory name and
the creation date are external collaborators (filesystem metadata). -/
structure SrcDoc where
  baseFname : String
  creationDate : String
  text : String

/-- The loop body of `convert` for one document.  `Except.error` is an
exception escaping the loop body (invalid front matter from
`split_front_matter`, or the `KeyError` from `header['img']`), which is
not caught and therefore aborts the whole batch.  `Except.ok (none, reg)`
is the `try/except` around `convert_params`: the document is skipped by
`continue` and the batch goes on.  `Except.ok (some out, reg)` is the
written output `'---\n' + front_matter_to_str(fm) + '---\n' + body`. -/
def convert_doc (reg : Registry × Registry) (d : SrcDoc) :
    Except String (Option String × Registry × Registry) :=
  match split_front_matter d.text with
  | .error e => .error e
  | .ok (fm, body) =>
    let hb := extract_header_tag body
    let fm := fmInsert fm "media_subpath"
      (.strV ("https://raw.githubusercontent.com/plant-humanities/chirpy/main/assets/" ++
        d.baseFname))
    match lookupS hb.1 "img" with
    | none => .error "KeyError: img"
    | some img =>
      let fm := fmInsert fm "image" (.mapV [("path", .strV img)])
      match convert_params hb.2 reg with
      | (none, reg') => .ok (none, reg')
      | (some body, reg') => .ok (some ("---\n" ++ front_matter_to_str fm ++ "---\n" ++
          clean body), reg')

/-- The batch loop of `convert`: process documents in walk order; an
uncaught exception stops the run (documents already written stay
written), a caught `convert_params` failure skips only that document. -/
def convert (reg : Registry × Registry) :
    List SrcDoc → List String × (Registry × Registry) × Option String
  | [] => ([], reg, none)
  | d :: rest =>
    match convert_doc reg d with
    | .error e => ([], reg, some e)
    | .ok (none, reg') => convert reg' rest
    | .ok (some out, reg') =>
      match convert reg' rest with
      | (outs, reg'', err) => (out :: outs, reg'', err)

/-! ## Auxiliary definitions for the statements -/

/-- The collapse pass at its canonical fuel (= input length, which every
match leaves sufficient). -/
def collapseL (cs : List Char) : List Char := collapseGo cs.length cs

/-- Removal of every entry with the given key from an attribute map
(used to state that empty-valued attributes contribute nothing). -/
def eraseKey (m : AttrMap) (k : String) : AttrMap :=
  m.filter (fun p => !(p.1 == k))

/-- The map block of the specification's worked example. -/
def mapBlockC1 : String :=
  "`map id=m1 zoom=4 basemap=osm`\n`- marker qid=Q1 layer=sites`\n`- geojson url=rivers.json`"

/-- A document whose front-matter payload is a yaml sequence (not a
mapping). -/
def badFmDoc : SrcDoc := ⟨"bad", "2024-01-01", "---\n- a\n---\nbody\n"⟩

/-- A well-formed document that converts successfully on its own. -/
def goodFmDoc : SrcDoc :=
  ⟨"good", "2024-01-02", "---\ntitle: x\n---\n`header img=pic.jpg`\nhello\n"⟩

/-! # Theorems -/

/-! ## Generic list lemmas -/

theorem mem_takeWhile_pred {α : Type} {p : α → Bool} {l : List α} {a : α}
    (h : a ∈ l.takeWhile p) : p a = true := by
  induction l with
  | nil => simp at h
  | cons x t ih =>
    rw [List.takeWhile_cons] at h
    by_cases hx : p x
    · simp only [hx, if_true, List.mem_cons] at h
      rcases h with h | h
      · exact h ▸ hx
      · exact ih h
    · simp [hx] at h

theorem dropWhile_head_false {α : Type} {p : α → Bool} {l t : List α} {c : α}
    (h : l.dropWhile p = c :: t) : p c = false := by
  have := List.head?_dropWhile_not p l
  rw [h] at this
  simpa using this

/-! ## Registry lemmas -/

theorem lookupCount_nil (k : String) : lookupCount [] k = 0 := rfl

theorem lookupCount_cons (q : String × Nat) (t : Registry) (k : String) :
    lookupCount (q :: t) k = if q.1 == k then q.2 else lookupCount t k := by
  unfold lookupCount
  rw [List.find?_cons]
  cases hq : q.1 == k <;> simp [hq]

theorem lookupCount_append_single (r : Registry) (k k' : String)
    (h : r.any (fun p => p.1 == k) = false) :
    lookupCount (r ++ [(k, 1)]) k' = lookupCount r k' + (if k' = k then 1 else 0) := by
  induction r with
  | nil =>
    rw [List.nil_append, lookupCount_nil, lookupCount_cons, lookupCount_nil, Nat.zero_add]
    by_cases hk : k' = k
    · rw [if_pos (beq_iff_eq.mpr hk.symm), if_pos hk]
    · rw [if_neg (fun hc => hk (beq_iff_eq.mp hc).symm), if_neg hk]
  | cons q t ih =>
    rw [List.any_cons, Bool.or_eq_false_iff] at h
    rw [List.cons_append, lookupCount_cons, lookupCount_cons, ih h.2]
    by_cases hq : (q.1 == k') = true
    · rw [if_pos hq, if_pos hq]
      have hne : ¬ k' = k := by
        intro hc
        have : (q.1 == k) = true := by rw [← hc]; exact hq
        rw [h.1] at this
        exact absurd this (by simp)
      rw [if_neg hne, Nat.add_zero]
    · rw [if_neg hq, if_neg hq]

theorem lookupCount_mapBump_ne (t : Registry) (k k' : String) (h : k' ≠ k) :
    lookupCount (t.map (fun p => if p.1 == k then (p.1, p.2 + 1) else p)) k' =
      lookupCount t k' := by
  induction t with
  | nil => rfl
  | cons q t ih =>
    rw [List.map_cons, lookupCount_cons, lookupCount_cons, ih]
    by_cases hq : (q.1 == k) = true
    · rw [if_pos hq]
      have h2 : (q.1 == k') = false := by
        rw [beq_eq_false_iff_ne]
        rw [beq_iff_eq.mp hq]
        exact fun hc => h hc.symm
      rw [if_neg (by rw [show ((q.1, q.2 + 1).1 == k') = ((q.1 == k') : Bool) from rfl, h2]; simp),
        if_neg (by rw [h2]; simp)]
    · rw [if_neg hq]
  
theorem lookupCount_mapBump_self (t : Registry) (k : String)
    (h : t.any (fun p => p.1 == k) = true) :
    lookupCount (t.map (fun p => if p.1 == k then (p.1, p.2 + 1) else p)) k =
      lookupCount t k + 1 := by
  induction t with
  | nil => simp at h
  | cons q t ih =>
    rw [List.map_cons, lookupCount_cons, lookupCount_cons]
    by_cases hq : (q.1 == k) = true
    · rw [if_pos hq, if_pos (by rw [show ((q.1, q.2 + 1).1 == k) = ((q.1 == k) : Bool) from rfl, hq]),
        if_pos hq]
    · rw [List.any_cons] at h
      have ht : t.any (fun p => p.1 == k) = true := by
        cases hqq : q.1 == k with
        | true => exact absurd hqq hq
        | false =>
          rw [hqq, Bool.false_or] at h
          exact h
      rw [if_neg hq, if_neg hq, ih ht]
      rw [if_neg hq]

theorem lookupCount_bumpAttr (r : Registry) (k k' : String) :
    lookupCount (bumpAttr r k) k' = lookupCount r k' + (if k' = k then 1 else 0) := by
  unfold bumpAttr
  by_cases hany : r.any (fun p => p.1 == k) = true
  · rw [if_pos hany]
    by_cases hk : k' = k
    · rw [if_pos hk, hk, lookupCount_mapBump_self r k hany]
    · rw [if_neg hk, lookupCount_mapBump_ne r k k' hk, Nat.add_zero]
  · rw [if_neg hany]
    exact lookupCount_append_single r k k' (Bool.eq_false_iff.mpr hany)

/-! ## Claim C1 -/

/-- Claim C1: converting the map block consisting of the tag line
`map id=m1 zoom=4 basemap=osm` followed by the sub-lines
`- marker qid=Q1 layer=sites` and `- geojson url=rivers.json` replaces
the block with exactly the include string with the recognized tag
attributes in canonical order, then the pipe-joined marker tokens and
geojson tokens in source order (each list present only because it is
non-empty), whatever the current registry state. -/
theorem map_block_example_conversion (reg : Registry) :
    (convert_map_block mapBlockC1 reg).1 =
      some ("\x7b% include embed/map.html id=\"m1\" zoom=\"4\" basemap=\"osm\" " ++
        "markers=\"Q1~sites\" geojson=\"rivers.json\" class=\"right\" %\x7d") := rfl

/-! ## Claim C10 -/

set_option maxHeartbeats 2000000 in
/-- The registry effect of converting the example map block is the chain
of bumps for the keyword tokens of each line, in iteration order. -/
theorem map_block_example_registry (reg : Registry) :
    (convert_map_block mapBlockC1 reg).2 =
      bumpAttr (bumpAttr (bumpAttr (bumpAttr (bumpAttr
        (bumpAttr reg "map") "-") "marker") "qid") "-") "geojson" := rfl

/-- Claim C10: the attribute tokenizer is applied to whole map-block
lines, so on the well-formed example block the keys `map` (tag line),
`-`, `marker`, `qid` and `geojson` (sub-lines) all enter the parsed maps
and each increments the map registry namespace once per occurrence
(`-` occurs on both sub-lines), cumulatively over any prior registry
state, while the recognized keys `url` and `layer` are not recorded. -/
theorem map_block_bumps_keyword_tokens (reg : Registry) :
    lookupCount (convert_map_block mapBlockC1 reg).2 "map" = lookupCount reg "map" + 1 ∧
    lookupCount (convert_map_block mapBlockC1 reg).2 "-" = lookupCount reg "-" + 2 ∧
    lookupCount (convert_map_block mapBlockC1 reg).2 "marker" = lookupCount reg "marker" + 1 ∧
    lookupCount (convert_map_block mapBlockC1 reg).2 "qid" = lookupCount reg "qid" + 1 ∧
    lookupCount (convert_map_block mapBlockC1 reg).2 "geojson" = lookupCount reg "geojson" + 1 ∧
    lookupCount (convert_map_block mapBlockC1 reg).2 "url" = lookupCount reg "url" ∧
    lookupCount (convert_map_block mapBlockC1 reg).2 "layer" = lookupCount reg "layer" := by
  rw [map_block_example_registry]
  refine ⟨?_, ?_, ?_, ?_, ?_, ?_, ?_⟩ <;>
    simp [lookupCount_bumpAttr]

/-! ## Claim C5 -/

/-- Claim C5: on an attribute string with unbalanced quoting (one on
which the shlex lexer raises), `to_dict` does not raise to its caller
(it is total), emits exactly one diagnostic carrying the offending text,
and returns the best-effort map built by folding the plain
whitespace-split tokens through the key=value / bare-flag insertion
loop (first-`=` split, quote-stripped values, bare flags mapped to
`None`). -/
theorem to_dict_unbalanced_fallback (s : String) (h : shlexTokens s = none) :
    to_dict s = ((pySplit s).foldl insTok [], [s]) := by
  unfold to_dict
  rw [h]

/-- Witness for C5 at the unterminated-quote input `src="a b`. -/
theorem to_dict_unbalanced_fallback_witness :
    shlexTokens "src=\"a b" = none ∧
    to_dict "src=\"a b" = ((pySplit "src=\"a b").foldl insTok [], ["src=\"a b"]) :=
  ⟨by decide, to_dict_unbalanced_fallback "src=\"a b" (by decide)⟩

/-! ## Claim C3 -/

/-- Claim C3 counterexample: at the front-matter-free document
`hello\n`, splitting returns the original text, but re-serializing and
concatenating as the output-writing step does yields
`---\n\x7b\x7d\n---\nhello\n`, not the original document: the identity
law is false. -/
theorem split_serialize_not_identity :
    split_front_matter "hello\n" = Except.ok ([], "hello\n") ∧
    ("---\n" ++ front_matter_to_str [] ++ "---\n" ++ "hello\n") ≠ "hello\n" :=
  ⟨rfl, by decide⟩

/-- Claim C3 (amended): on a document with no leading front-matter
block, `split_front_matter` returns the empty front matter with the
original text, but the output-writing step's reassembly prepends
`---\n\x7b\x7d\n---\n` (pyyaml serializes the empty mapping as
`\x7b\x7d\n`), so the reassembled text always differs from the
document: the identity law does not hold. -/
theorem split_front_matter_no_fm (md : String) (h : matchFM md.toList = none) :
    split_front_matter md = Except.ok ([], md) ∧
    ("---\n" ++ front_matter_to_str [] ++ "---\n" ++ md) = "---\n\x7b\x7d\n---\n" ++ md ∧
    ("---\n" ++ front_matter_to_str [] ++ "---\n" ++ md) ≠ md := by
  refine ⟨?_, rfl, ?_⟩
  · unfold split_front_matter
    rw [h]
  · intro hc
    have hlen := congrArg (fun s => s.toList.length) hc
    simp only at hlen
    rw [show ("---\n" ++ front_matter_to_str [] ++ "---\n" ++ md).toList =
      "---\n\x7b\x7d\n---\n".toList ++ md.toList from rfl] at hlen
    rw [List.length_append] at hlen
    rw [show ("---\n\x7b\x7d\n---\n".toList).length = 11 from by decide] at hlen
    omega

/-- Witness for the amended C3 at `hello\n`. -/
theorem split_front_matter_no_fm_witness :
    matchFM "hello\n".toList = none ∧
    (split_front_matter "hello\n" = Except.ok ([], "hello\n") ∧
      ("---\n" ++ front_matter_to_str [] ++ "---\n" ++ "hello\n") =
        "---\n\x7b\x7d\n---\n" ++ "hello\n" ∧
      ("---\n" ++ front_matter_to_str [] ++ "---\n" ++ "hello\n") ≠ "hello\n") :=
  ⟨by decide, split_front_matter_no_fm "hello\n" (by decide)⟩

/-! ## Claim C4 -/

/-- Claim C4 counterexample: the sequence-valued front matter of
`badFmDoc` raises, the exception is not caught (only the
`convert_params` call sits inside a `try`), and the batch stops: the
following well-formed document — which converts fine on its own — is
never processed. -/
theorem invalid_front_matter_stops_batch :
    convert ([], []) [badFmDoc, goodFmDoc] =
      ([], ([], []), some "Front matter must be a mapping") ∧
    (convert ([], []) [goodFmDoc]).1.length = 1 :=
  ⟨rfl, by decide⟩

/-- Claim C4 (amended): a document whose front matter fails to parse
(invalid yaml or a non-mapping payload) makes `split_front_matter`
raise, and since that call is outside the per-document `try` (which
covers only `convert_params`), the exception aborts the whole batch:
no later document is processed, whatever the registry state. -/
theorem invalid_front_matter_aborts (reg : Registry × Registry) (d : SrcDoc)
    (rest : List SrcDoc) (e : String) (h : split_front_matter d.text = Except.error e) :
    convert reg (d :: rest) = ([], reg, some e) := by
  show (match convert_doc reg d with
    | .error e => ([], reg, some e)
    | .ok (none, reg') => convert reg' rest
    | .ok (some out, reg') =>
      match convert reg' rest with
      | (outs, reg'', err) => (out :: outs, reg'', err)) = ([], reg, some e)
  unfold convert_doc
  rw [h]

/-- Witness for the amended C4 at the sequence-fronted document. -/
theorem invalid_front_matter_aborts_witness :
    split_front_matter badFmDoc.text = Except.error "Front matter must be a mapping" ∧
    convert ([], []) [badFmDoc, goodFmDoc] =
      ([], ([], []), some "Front matter must be a mapping") :=
  ⟨rfl, invalid_front_matter_aborts ([], []) badFmDoc [goodFmDoc]
    "Front matter must be a mapping" rfl⟩

/-! ## Attribute-map lemmas -/

theorem containsA_cons (p : String × Option String) (m : AttrMap) (k : String) :
    containsA (p :: m) k = (p.1 == k || containsA m k) := by
  unfold containsA
  rw [List.any_cons]

theorem lookupA_cons (p : String × Option String) (m : AttrMap) (k : String) :
    lookupA (p :: m) k = if p.1 == k then some p.2 else lookupA m k := by
  unfold lookupA
  rw [List.find?_cons]
  cases h : p.1 == k <;> simp [h]

theorem containsA_eraseKey_self (m : AttrMap) (k : String) :
    containsA (eraseKey m k) k = false := by
  induction m with
  | nil => rfl
  | cons p t ih =>
    unfold eraseKey
    rw [List.filter_cons]
    by_cases hp : (p.1 == k) = true
    · rw [if_neg (by simp [hp])]
      exact ih
    · rw [if_pos (by simp [Bool.eq_false_iff.mpr hp])]
      rw [containsA_cons, Bool.eq_false_iff.mpr hp, Bool.false_or]
      exact ih

theorem containsA_eraseKey_ne (m : AttrMap) (k k' : String) (h : k' ≠ k) :
    containsA (eraseKey m k) k' = containsA m k' := by
  induction m with
  | nil => rfl
  | cons p t ih =>
    unfold eraseKey at ih ⊢
    rw [List.filter_cons]
    by_cases hp : (p.1 == k) = true
    · rw [if_neg (by simp [hp])]
      rw [ih, containsA_cons]
      have hp' : (p.1 == k') = false := by
        rw [beq_eq_false_iff_ne, beq_iff_eq.mp hp]
        exact fun hc => h hc.symm
      rw [hp', Bool.false_or]
    · rw [if_pos (by simp [Bool.eq_false_iff.mpr hp])]
      rw [containsA_cons, containsA_cons, ih]

theorem lookupA_eraseKey_ne (m : AttrMap) (k k' : String) (h : k' ≠ k) :
    lookupA (eraseKey m k) k' = lookupA m k' := by
  induction m with
  | nil => rfl
  | cons p t ih =>
    unfold eraseKey at ih ⊢
    rw [List.filter_cons]
    by_cases hp : (p.1 == k) = true
    · rw [if_neg (by simp [hp])]
      rw [ih, lookupA_cons]
      have hp' : (p.1 == k') = false := by
        rw [beq_eq_false_iff_ne, beq_iff_eq.mp hp]
        exact fun hc => h hc.symm
      rw [hp']
      simp
    · rw [if_pos (by simp [Bool.eq_false_iff.mpr hp])]
      rw [lookupA_cons, lookupA_cons, ih]

theorem lookupVal_eraseKey_ne (m : AttrMap) (k k' : String) (h : k' ≠ k) :
    lookupVal (eraseKey m k) k' = lookupVal m k' := by
  unfold lookupVal
  rw [lookupA_eraseKey_ne m k k' h]

theorem hashIdPart_cons (p : String × Option String) (m : AttrMap) :
    hashIdPart (p :: m) =
      (if strStartsHash p.1 then "id=\"" ++ strTail p.1 ++ "\" " else "") ++ hashIdPart m := rfl

theorem hashIdPart_eraseKey (m : AttrMap) (k : String) (h : strStartsHash k = false) :
    hashIdPart (eraseKey m k) = hashIdPart m := by
  induction m with
  | nil => rfl
  | cons p t ih =>
    unfold eraseKey at ih ⊢
    rw [List.filter_cons]
    by_cases hp : (p.1 == k) = true
    · rw [if_neg (by simp [hp])]
      rw [ih, hashIdPart_cons]
      rw [show strStartsHash p.1 = false from beq_iff_eq.mp hp ▸ h]
      simp
    · rw [if_pos (by simp [Bool.eq_false_iff.mpr hp])]
      rw [hashIdPart_cons, hashIdPart_cons, ih]

theorem emitYoutube_eraseKey (keys : List String) (m : AttrMap) (k : String)
    (hk : truthyVal (lookupVal m k) = false) :
    emitYoutube keys (eraseKey m k) = emitYoutube keys m := by
  induction keys with
  | nil => rfl
  | cons k' rest ih =>
    unfold emitYoutube
    rw [ih]
    by_cases hkk : k' = k
    · subst hkk
      rw [containsA_eraseKey_self m k', hk]
      simp
    · rw [containsA_eraseKey_ne m k k' hkk, lookupVal_eraseKey_ne m k k' hkk]

/-! ## Claim C7 -/

/-- Claim C7: converting a youtube directive with `vid=abc123` emits the
value under the output name `id` (and not under `vid`); moreover every
recognized youtube attribute (`id`, `vid`, `caption`, `aspect`) is
emitted only when its value is non-empty: an absent or empty-valued key
contributes nothing, i.e. erasing it leaves the emitted include string
unchanged. -/
theorem youtube_vid_emitted_as_id :
    (∀ reg : Registry, convert_youtube_tag "vid=abc123" reg =
      ("\x7b% include embed/youtube.html id=\"abc123\" class=\"right\" %\x7d", reg)) ∧
    (∀ (attrs : AttrMap) (k : String),
      k ∈ (["id", "vid", "caption", "aspect"] : List String) →
      truthyVal (lookupVal attrs k) = false →
      youtubeTagOf attrs = youtubeTagOf (eraseKey attrs k)) := by
  constructor
  · intro reg
    rfl
  · intro attrs k hmem hk
    have hhash : strStartsHash k = false := by
      simp only [List.mem_cons, List.not_mem_nil, or_false] at hmem
      rcases hmem with rfl | rfl | rfl | rfl <;> decide
    unfold youtubeTagOf
    rw [hashIdPart_eraseKey attrs k hhash,
      emitYoutube_eraseKey ["id", "vid", "caption", "aspect"] attrs k hk]

/-- Witness for C7: the concrete `vid=abc123` conversion, and an
empty-valued `vid` (from `vid= caption=hi`) contributing nothing. -/
theorem youtube_vid_emitted_as_id_witness :
    convert_youtube_tag "vid=abc123" [] =
      ("\x7b% include embed/youtube.html id=\"abc123\" class=\"right\" %\x7d", []) ∧
    ("vid" ∈ (["id", "vid", "caption", "aspect"] : List String) ∧
      truthyVal (lookupVal (to_dict "vid= caption=hi").1 "vid") = false ∧
      youtubeTagOf (to_dict "vid= caption=hi").1 =
        youtubeTagOf (eraseKey (to_dict "vid= caption=hi").1 "vid")) :=
  ⟨youtube_vid_emitted_as_id.1 [],
    by decide,
    by decide,
    youtube_vid_emitted_as_id.2 (to_dict "vid= caption=hi").1 "vid" (by decide) (by decide)⟩

/-! ## Claim C8 -/

theorem emitPresence_cons (k : String) (ks : List String) (m : AttrMap) :
    emitPresence (k :: ks) m =
      (if containsA m k then k ++ "=\"" ++ valueStr (lookupVal m k) ++ "\" " else "") ++
        emitPresence ks m := rfl

theorem containsA_of_lookupA {m : AttrMap} {k : String} {v : Option String}
    (h : lookupA m k = some v) : containsA m k = true := by
  induction m with
  | nil => simp [lookupA, List.find?] at h
  | cons p t ih =>
    rw [lookupA_cons] at h
    rw [containsA_cons]
    by_cases hp : (p.1 == k) = true
    · rw [hp, Bool.true_or]
    · rw [if_neg hp] at h
      rw [ih h, Bool.or_true]

theorem hashIdPart_of_no_hash (m : AttrMap)
    (h : m.filter (fun p => strStartsHash p.1) = []) : hashIdPart m = "" := by
  induction m with
  | nil => rfl
  | cons p t ih =>
    rw [List.filter_cons] at h
    by_cases hp : strStartsHash p.1 = true
    · rw [if_pos hp] at h
      exact absurd h (by simp)
    · rw [if_neg hp] at h
      rw [hashIdPart_cons, Bool.eq_false_iff.mpr hp]
      rw [ih h]
      simp

theorem hashIdPart_single_foo (m : AttrMap)
    (h : (m.filter (fun p => strStartsHash p.1)).map Prod.fst = ["#foo"]) :
    hashIdPart m = "id=\"foo\" " := by
  induction m with
  | nil => simp at h
  | cons p t ih =>
    rw [List.filter_cons] at h
    by_cases hp : strStartsHash p.1 = true
    · rw [if_pos hp, List.map_cons] at h
      have h1 : p.1 = "#foo" := (List.cons_eq_cons.mp h).1
      have h2 : t.filter (fun p => strStartsHash p.1) = [] := by
        have := (List.cons_eq_cons.mp h).2
        exact List.map_eq_nil_iff.mp this
      rw [hashIdPart_cons, hashIdPart_of_no_hash t h2, hp]
      rw [if_pos rfl, h1]
      decide
    · rw [if_neg hp] at h
      rw [hashIdPart_cons, Bool.eq_false_iff.mpr hp, ih h]
      simp

/-- Claim C8: for an image directive whose parsed attribute map has
`#foo` as its only `#`-shorthand key together with an explicit
`id="bar"`, the emitted include string contains two `id` attributes:
`id="foo"` first (the shorthand loop runs before the canonical loop) and
`id="bar"` in its canonical position (first of the recognized-attribute
order); the duplicate is not deduplicated. -/
theorem image_shorthand_duplicate_id (attrs : AttrMap)
    (h1 : (attrs.filter (fun p => strStartsHash p.1)).map Prod.fst = ["#foo"])
    (h2 : lookupA attrs "id" = some (some "bar")) :
    imageTagOf attrs =
      "\x7b% include embed/image.html " ++ "id=\"foo\" " ++ "id=\"bar\" " ++
        emitPresence ["src", "manifest", "seq", "caption", "attribution", "description",
          "label", "license", "source", "cover", "region", "rotation", "aspect"] attrs ++
        "class=\"right\" %\x7d" := by
  unfold imageTagOf
  rw [hashIdPart_single_foo attrs h1]
  rw [show emitPresence imageRecognized attrs =
    (if containsA attrs "id" then
      "id" ++ "=\"" ++ valueStr (lookupVal attrs "id") ++ "\" " else "") ++
      emitPresence ["src", "manifest", "seq", "caption", "attribution", "description",
        "label", "license", "source", "cover", "region", "rotation", "aspect"] attrs
    from rfl]
  rw [if_pos (containsA_of_lookupA h2)]
  rw [show lookupVal attrs "id" = some "bar" by unfold lookupVal; rw [h2]]
  rw [show ("id" ++ "=\"" ++ valueStr (some "bar") ++ "\" ") = ("id=\"bar\" " : String) from rfl]
  simp only [String.append_assoc]

/-- Witness for C8 at the attribute text `#foo id=bar src=a.jpg`. -/
theorem image_shorthand_duplicate_id_witness :
    (((to_dict "#foo id=bar src=a.jpg").1.filter
        (fun p => strStartsHash p.1)).map Prod.fst = ["#foo"]) ∧
    lookupA (to_dict "#foo id=bar src=a.jpg").1 "id" = some (some "bar") ∧
    imageTagOf (to_dict "#foo id=bar src=a.jpg").1 =
      "\x7b% include embed/image.html " ++ "id=\"foo\" " ++ "id=\"bar\" " ++
        emitPresence ["src", "manifest", "seq", "caption", "attribution", "description",
          "label", "license", "source", "cover", "region", "rotation", "aspect"]
          (to_dict "#foo id=bar src=a.jpg").1 ++
        "class=\"right\" %\x7d" :=
  ⟨by decide, by decide,
    image_shorthand_duplicate_id (to_dict "#foo id=bar src=a.jpg").1 (by decide) (by decide)⟩

/-! ## Claim C6 -/

theorem lookupCount_recordUnrecognized (rec : List String) (attrs : AttrMap)
    (r : Registry) (k : String) :
    lookupCount (recordUnrecognized rec attrs r) k =
      lookupCount r k +
        ((attrs.map Prod.fst).filter (fun a => !(rec.contains a))).count k := by
  induction attrs generalizing r with
  | nil => simp [recordUnrecognized]
  | cons p t ih =>
    show lookupCount (recordUnrecognized rec t
      (if rec.contains p.1 then r else bumpAttr r p.1)) k = _
    rw [List.map_cons, List.filter_cons]
    by_cases hc : rec.contains p.1 = true
    · rw [if_pos hc, ih]
      rw [if_neg (by rw [hc]; simp)]
    · rw [if_neg hc, ih]
      rw [if_pos (by rw [Bool.eq_false_iff.mpr hc]; rfl)]
      rw [lookupCount_bumpAttr, List.count_cons]
      by_cases hk : k = p.1
      · rw [if_pos hk, if_pos (beq_iff_eq.mpr hk.symm)]
        omega
      · rw [if_neg hk,
          if_neg (show ¬ (p.1 == k) = true by
            simp only [beq_iff_eq]
            exact fun hcc => hk hcc.symm)]
        omega

theorem keys_pyInsert_mem (m : AttrMap) (k : String) (v : Option String)
    (h : m.any (fun p => p.1 == k) = true) :
    (pyInsert m k v).map Prod.fst = m.map Prod.fst := by
  unfold pyInsert
  rw [if_pos h, List.map_map]
  refine List.map_congr_left ?_
  intro p _
  show (if (p.1 == k) = true then (p.1, v) else p).1 = p.1
  by_cases hp : (p.1 == k) = true
  · rw [if_pos hp]
  · rw [if_neg hp]

theorem keys_nodup_pyInsert (m : AttrMap) (k : String) (v : Option String)
    (h : (m.map Prod.fst).Nodup) : ((pyInsert m k v).map Prod.fst).Nodup := by
  by_cases hany : m.any (fun p => p.1 == k) = true
  · rw [keys_pyInsert_mem m k v hany]
    exact h
  · unfold pyInsert
    rw [if_neg hany, List.map_append]
    have hk : k ∉ m.map Prod.fst := by
      intro hmem
      rcases List.mem_map.mp hmem with ⟨p, hp, hpk⟩
      have : m.any (fun p => p.1 == k) = true :=
        List.any_eq_true.mpr ⟨p, hp, beq_iff_eq.mpr hpk⟩
      exact hany this
    simp only [List.map_cons, List.map_nil]
    rw [List.nodup_append]
    exact ⟨h, List.nodup_singleton k, by simpa using hk⟩

theorem keys_nodup_insTok (m : AttrMap) (token : String)
    (h : (m.map Prod.fst).Nodup) : ((insTok m token).map Prod.fst).Nodup := by
  unfold insTok
  cases splitEqOnce token.toList with
  | none => exact keys_nodup_pyInsert m token none h
  | some kv => exact keys_nodup_pyInsert m (String.mk kv.1) _ h

theorem keys_nodup_foldl (ts : List String) (m : AttrMap)
    (h : (m.map Prod.fst).Nodup) : ((ts.foldl insTok m).map Prod.fst).Nodup := by
  induction ts generalizing m with
  | nil => exact h
  | cons t ts ih =>
    exact ih (insTok m t) (keys_nodup_insTok m t h)

theorem to_dict_keys_nodup (s : String) : ((to_dict s).1.map Prod.fst).Nodup := by
  unfold to_dict
  cases shlexTokens s with
  | none => exact keys_nodup_foldl _ [] List.nodup_nil
  | some tokens => exact keys_nodup_foldl _ [] List.nodup_nil

/-- Claim C6 counterexample: converting an `image-compare` directive
with the unrecognized attribute `foo` leaves the registry untouched —
the count of `foo` stays 0 instead of being incremented to 1 as the
claim demands. -/
theorem image_compare_does_not_record :
    ¬ (lookupCount ((convert_image_compare_tag "foo=bar" ([] : Registry)).2) "foo" =
        lookupCount ([] : Registry) "foo" + 1) := by decide

/-- Claim C6 (amended): among the image-family directives only `image`
records unrecognized attribute names: converting an image directive
increments the image namespace by exactly one for each attribute name of
the occurrence outside the recognized set, cumulatively over any prior
registry state (keys of one occurrence are unique, so one occurrence
adds one per name); `image-compare` never touches the registries. -/
theorem image_family_registry_behavior :
    (∀ (s : String) (reg : Registry) (k : String),
      lookupCount ((convert_image_tag s reg).2) k =
        lookupCount reg k +
          (if k ∈ (((to_dict s).1.map Prod.fst).filter
            (fun a => !(imageRecognized.contains a))) then 1 else 0)) ∧
    (∀ (s : String) (reg : Registry), (convert_image_compare_tag s reg).2 = reg) := by
  constructor
  · intro s reg k
    show lookupCount (recordUnrecognized imageRecognized (to_dict s).1 reg) k = _
    rw [lookupCount_recordUnrecognized]
    congr 1
    have hnd : (((to_dict s).1.map Prod.fst).filter
        (fun a => !(imageRecognized.contains a))).Nodup :=
      (to_dict_keys_nodup s).filter _
    by_cases hm : k ∈ (((to_dict s).1.map Prod.fst).filter
        (fun a => !(imageRecognized.contains a)))
    · rw [if_pos hm]
      exact List.count_eq_one_of_mem hnd hm
    · rw [if_neg hm]
      exact List.count_eq_zero_of_not_mem hm
  · intro s reg
    rfl

/-- Witness for the amended C6: an `image` occurrence with the
unrecognized name `zip` bumps it from 0 to 1, and an `image-compare`
occurrence leaves the registry unchanged. -/
theorem image_family_registry_behavior_witness :
    lookupCount ((convert_image_tag "zip=9 src=a.jpg" ([] : Registry)).2) "zip" =
      lookupCount ([] : Registry) "zip" +
        (if "zip" ∈ (((to_dict "zip=9 src=a.jpg").1.map Prod.fst).filter
          (fun a => !(imageRecognized.contains a))) then 1 else 0) ∧
    (convert_image_compare_tag "foo=bar" ([] : Registry)).2 = ([] : Registry) :=
  ⟨image_family_registry_behavior.1 "zip=9 src=a.jpg" [] "zip",
    image_family_registry_behavior.2 "foo=bar" []⟩

/-! ## Claim C9 -/

theorem tryHeaderAt_built (a post : List Char)
    (ha : btick ∉ a)
    (hhead : a.head?.all (fun c => !isPyWordCh c) = true) :
    tryHeaderAt (btick :: ("header".toList ++ a ++ btick :: post)) = some (a, post) := by
  have hsat : ∀ d ∈ a, (fun d => decide (d ≠ btick)) d = true := by
    intro d hd
    simp only [decide_eq_true_eq]
    exact fun hc => ha (hc ▸ hd)
  have hdrop : ("header".toList ++ a ++ btick :: post).drop 6 = a ++ btick :: post := rfl
  have htake : ("header".toList ++ a ++ btick :: post).take 6 =
    ['h', 'e', 'a', 'd', 'e', 'r'] := rfl
  have hb : (match a ++ btick :: post with
      | [] => true
      | d :: _ => !isPyWordCh d) = true := by
    cases a with
    | nil => rfl
    | cons c t =>
      rw [List.cons_append]
      simpa using hhead
  have htw : (a ++ btick :: post).takeWhile (fun d => decide (d ≠ btick)) = a := by
    rw [List.takeWhile_append_of_pos hsat, List.takeWhile_cons_of_neg (by simp)]
    simp
  have hdw : (a ++ btick :: post).dropWhile (fun d => decide (d ≠ btick)) = btick :: post := by
    rw [List.dropWhile_append_of_pos hsat, List.dropWhile_cons_of_neg (by simp)]
  simp only [tryHeaderAt, htake, hdrop, htw, hdw, hb]
  simp

theorem findHeaderGo_built (pre a post : List Char)
    (hp : btick ∉ pre)
    (ha : btick ∉ a)
    (hhead : a.head?.all (fun c => !isPyWordCh c) = true) :
    findHeaderGo (pre ++ btick :: ("header".toList ++ a ++ btick :: post)) =
      some (pre, a, post) := by
  induction pre with
  | nil =>
    rw [List.nil_append]
    simp only [findHeaderGo]
    rw [tryHeaderAt_built a post ha hhead]
  | cons c t ih =>
    have hc : c ≠ btick := fun hcc => hp (hcc ▸ List.mem_cons_self c t)
    have ht : btick ∉ t := fun htt => hp (List.mem_cons_of_mem c htt)
    rw [List.cons_append]
    have hnone : tryHeaderAt (c :: (t ++ btick ::
        ("header".toList ++ a ++ btick :: post))) = none := by
      simp only [tryHeaderAt]
      rw [if_neg hc]
    simp only [findHeaderGo]
    rw [hnone, ih ht]

/-- Claim C9: `extract_header_tag` removes exactly the span of the first
header directive and leaves every other character unchanged — for a body
`pre ++ "`header" ++ a ++ "`" ++ post` whose prefix contains no backtick
(so the shown directive is the first occurrence), whose attribute text
contains no backtick, and whose attribute text is empty or starts with a
non-word character (the `\b` boundary), the result is the parsed
attribute map of `a` together with exactly `pre ++ post`; and for a body
with no header-directive occurrence it returns the empty map and the
original body unchanged. -/
theorem extract_header_removes_exact_span :
    (∀ pre a post : String,
      btick ∉ pre.toList →
      btick ∉ a.toList →
      a.toList.head?.all (fun c => !isPyWordCh c) = true →
      extract_header_tag (pre ++ "`header" ++ a ++ "`" ++ post) =
        (attrScan a, pre ++ post)) ∧
    (∀ md : String, findHeaderGo md.toList = none → extract_header_tag md = ([], md)) := by
  constructor
  · intro pre a post hp ha hhead
    unfold extract_header_tag
    rw [show (pre ++ "`header" ++ a ++ "`" ++ post).toList =
        pre.toList ++ btick :: ("header".toList ++ a.toList ++ btick :: post.toList) from by
      show pre.toList ++ "`header".toList ++ a.toList ++ "`".toList ++ post.toList = _
      rw [show "`header".toList = btick :: "header".toList from rfl,
        show "`".toList = [btick] from rfl]
      simp]
    rw [findHeaderGo_built pre.toList a.toList post.toList hp ha hhead]
    rfl
  · intro md h
    unfold extract_header_tag
    rw [h]

/-- Witness for C9: a concrete body with surrounding text, and a
directive-free body. -/
theorem extract_header_removes_exact_span_witness :
    (btick ∉ "x ".toList ∧ btick ∉ " img=pic.jpg".toList ∧
      " img=pic.jpg".toList.head?.all (fun c => !isPyWordCh c) = true ∧
      extract_header_tag ("x " ++ "`header" ++ " img=pic.jpg" ++ "`" ++ " y") =
        (attrScan " img=pic.jpg", "x " ++ " y")) ∧
    (findHeaderGo "no tag here".toList = none ∧
      extract_header_tag "no tag here" = ([], "no tag here")) :=
  ⟨⟨by decide, by decide, by decide,
    extract_header_removes_exact_span.1 "x " " img=pic.jpg" " y"
      (by decide) (by decide) (by decide)⟩,
   ⟨by decide, extract_header_removes_exact_span.2 "no tag here" (by decide)⟩⟩

/-! ## Identity of the clean passes on texts without their trigger
characters -/

theorem matchWrap_none {cs : List Char} (h : lbrace ∉ cs) : matchWrap cs = none := by
  simp only [matchWrap]
  split
  · next c1 c2 r2 heq =>
    rw [if_neg]
    intro hand
    apply h
    have hc1 : c1 ∈ cs.dropWhile isBlankCh := by
      rw [heq]
      exact List.mem_cons_self _ _
    exact hand.1 ▸ List.dropWhile_subset _ hc1
  · rfl

theorem subWrapGo_id (fuel : Nat) (cs : List Char) (b : Bool) (h : lbrace ∉ cs) :
    subWrapGo fuel cs b = cs := by
  induction fuel generalizing cs b with
  | zero => rfl
  | succ fuel ih =>
    cases cs with
    | nil => rfl
    | cons c cs' =>
      have h' : lbrace ∉ cs' := fun hh => h (List.mem_cons_of_mem _ hh)
      cases b with
      | false =>
        show c :: subWrapGo fuel cs' (c = '\n') = c :: cs'
        rw [ih cs' _ h']
      | true =>
        show (match matchWrap (c :: cs') with
          | some (rem, nl) => subWrapGo fuel rem nl
          | none => c :: subWrapGo fuel cs' (c = '\n')) = c :: cs'
        rw [matchWrap_none h]
        show c :: subWrapGo fuel cs' (c = '\n') = c :: cs'
        rw [ih cs' _ h']

theorem takeWhile_eq_pred_nil {a : Char} {l : List Char} (h : a ∉ l) :
    l.takeWhile (fun c => c = a) = [] := by
  cases l with
  | nil => rfl
  | cons c t =>
    rw [List.takeWhile_cons_of_neg]
    simp only [decide_eq_true_eq]
    exact fun hc => h (hc ▸ List.mem_cons_self c t)

theorem matchCaret_none {cs : List Char} (h : '#' ∉ cs) : matchCaret cs = none := by
  simp only [matchCaret]
  split
  · next r1 =>
    have hr1 : '#' ∉ r1.dropWhile isBlankCh := by
      intro hm
      exact h (List.mem_cons_of_mem _ (List.dropWhile_subset _ hm))
    rw [takeWhile_eq_pred_nil hr1]
    simp
  · rfl

theorem matchHeading_none {cs : List Char} (h : '#' ∉ cs) : matchHeading cs = none := by
  simp only [matchHeading]
  rw [takeWhile_eq_pred_nil h]
  simp

theorem matchEmptyHeading_none {cs : List Char} (h : '#' ∉ cs) :
    matchEmptyHeading cs = none := by
  simp only [matchEmptyHeading]
  have hr1 : '#' ∉ cs.dropWhile isPyWs := fun hm => h (List.dropWhile_subset _ hm)
  rw [takeWhile_eq_pred_nil hr1]
  simp

theorem subCaretGo_id (fuel : Nat) (cs : List Char) (b : Bool) (h : '#' ∉ cs) :
    subCaretGo fuel cs b = cs := by
  induction fuel generalizing cs b with
  | zero => rfl
  | succ fuel ih =>
    cases cs with
    | nil => rfl
    | cons c cs' =>
      have h' : '#' ∉ cs' := fun hh => h (List.mem_cons_of_mem _ hh)
      cases b with
      | false =>
        show c :: subCaretGo fuel cs' (c = '\n') = c :: cs'
        rw [ih cs' _ h']
      | true =>
        show (match matchCaret (c :: cs') with
          | some (rem, nl) => subCaretGo fuel rem nl
          | none => c :: subCaretGo fuel cs' (c = '\n')) = c :: cs'
        rw [matchCaret_none h]
        show c :: subCaretGo fuel cs' (c = '\n') = c :: cs'
        rw [ih cs' _ h']

theorem subHeadingGo_id (fuel : Nat) (cs : List Char) (b : Bool) (h : '#' ∉ cs) :
    subHeadingGo fuel cs b = cs := by
  induction fuel generalizing cs b with
  | zero => rfl
  | succ fuel ih =>
    cases cs with
    | nil => rfl
    | cons c cs' =>
      have h' : '#' ∉ cs' := fun hh => h (List.mem_cons_of_mem _ hh)
      cases b with
      | false =>
        show c :: subHeadingGo fuel cs' (c = '\n') = c :: cs'
        rw [ih cs' _ h']
      | true =>
        show (match matchHeading (c :: cs') with
          | some (out, rem) => out ++ subHeadingGo fuel rem true
          | none => c :: subHeadingGo fuel cs' (c = '\n')) = c :: cs'
        rw [matchHeading_none h]
        show c :: subHeadingGo fuel cs' (c = '\n') = c :: cs'
        rw [ih cs' _ h']

theorem subEmptyGo_id (fuel : Nat) (cs : List Char) (b : Bool) (h : '#' ∉ cs) :
    subEmptyGo fuel cs b = cs := by
  induction fuel generalizing cs b with
  | zero => rfl
  | succ fuel ih =>
    cases cs with
    | nil => rfl
    | cons c cs' =>
      have h' : '#' ∉ cs' := fun hh => h (List.mem_cons_of_mem _ hh)
      cases b with
      | false =>
        show c :: subEmptyGo fuel cs' (c = '\n') = c :: cs'
        rw [ih cs' _ h']
      | true =>
        show (match matchEmptyHeading (c :: cs') with
          | some (rem, nl) => subEmptyGo fuel rem nl
          | none => c :: subEmptyGo fuel cs' (c = '\n')) = c :: cs'
        rw [matchEmptyHeading_none h]
        show c :: subEmptyGo fuel cs' (c = '\n') = c :: cs'
        rw [ih cs' _ h']

/-! ## The collapse pass: supporting lemmas -/

theorem collapseGo_nil (f : Nat) : collapseGo f [] = [] := by
  cases f <;> rfl

theorem mem_afterLastNl {a : Char} {w : List Char} (h : a ∈ afterLastNl w) : a ∈ w := by
  unfold afterLastNl at h
  rw [List.mem_reverse] at h
  have := List.takeWhile_subset _ h
  rwa [List.mem_reverse] at this

theorem afterLastNl_no_nl (w : List Char) : '\n' ∉ afterLastNl w := by
  intro h
  unfold afterLastNl at h
  rw [List.mem_reverse] at h
  have := mem_takeWhile_pred h
  simp at this

theorem afterLastNl_cons_nl (a : List Char) (h : '\n' ∉ a) :
    afterLastNl ('\n' :: a) = a := by
  unfold afterLastNl
  rw [show ('\n' :: a).reverse = a.reverse ++ ['\n'] from by simp]
  rw [List.takeWhile_append_of_pos (by
    intro d hd
    simp only [decide_eq_true_eq]
    exact fun hc => h (hc ▸ List.mem_reverse.mp hd))]
  rw [List.takeWhile_cons_of_neg (by simp)]
  simp

theorem collapseGo_subset : ∀ (f : Nat) (cs : List Char) (a : Char),
    a ∈ collapseGo f cs → a ∈ cs ∨ a = '\n' := by
  intro f
  induction f with
  | zero =>
    intro cs a h
    exact Or.inl h
  | succ f ih =>
    intro cs a h
    cases cs with
    | nil => simp [collapseGo_nil] at h
    | cons c cs' =>
      by_cases hc : c = '\n'
      · subst hc
        by_cases hw : (cs'.takeWhile isPyWs).contains '\n' = true
        · rw [show collapseGo (f + 1) ('\n' :: cs') =
            '\n' :: '\n' :: collapseGo f (afterLastNl (cs'.takeWhile isPyWs) ++
              cs'.dropWhile isPyWs) from by
            show (if '\n' = '\n' then _ else _) = _
            rw [if_pos rfl]
            simp only []
            rw [hw]
            rfl] at h
          rcases List.mem_cons.mp h with h1 | h1
          · exact Or.inr h1
          rcases List.mem_cons.mp h1 with h2 | h2
          · exact Or.inr h2
          rcases ih _ a h2 with h3 | h3
          · rcases List.mem_append.mp h3 with h4 | h4
            · exact Or.inl (List.mem_cons_of_mem _
                (List.takeWhile_subset _ (mem_afterLastNl h4)))
            · exact Or.inl (List.mem_cons_of_mem _ (List.dropWhile_subset _ h4))
          · exact Or.inr h3
        · rw [show collapseGo (f + 1) ('\n' :: cs') = '\n' :: collapseGo f cs' from by
            show (if '\n' = '\n' then _ else _) = _
            rw [if_pos rfl]
            simp only []
            rw [Bool.eq_false_iff.mpr hw]
            rfl] at h
          rcases List.mem_cons.mp h with h1 | h1
          · exact Or.inr h1
          rcases ih _ a h1 with h2 | h2
          · exact Or.inl (List.mem_cons_of_mem _ h2)
          · exact Or.inr h2
      · rw [show collapseGo (f + 1) (c :: cs') = c :: collapseGo f cs' from by
          show (if c = '\n' then _ else _) = _
          rw [if_neg hc]] at h
        rcases List.mem_cons.mp h with h1 | h1
        · exact Or.inl (h1 ▸ List.mem_cons_self c cs')
        rcases ih _ a h1 with h2 | h2
        · exact Or.inl (List.mem_cons_of_mem _ h2)
        · exact Or.inr h2

theorem takeWhile_length_lt_of_mem {a : Char} {p : Char → Bool} {l : List Char}
    (hmem : a ∈ l) (hp : p a = false) : (l.takeWhile p).length < l.length := by
  induction l with
  | nil => simp at hmem
  | cons c t ih =>
    by_cases hc : p c = true
    · rw [List.takeWhile_cons_of_pos hc, List.length_cons, List.length_cons]
      have hat : a ∈ t := by
        rcases List.mem_cons.mp hmem with h1 | h1
        · exact absurd (h1 ▸ hc) (by rw [hp]; simp)
        · exact h1
      exact Nat.succ_lt_succ (ih hat)
    · rw [List.takeWhile_cons_of_neg hc]
      simp

theorem contains_nl_mem {w : List Char} (h : w.contains '\n' = true) : '\n' ∈ w := by
  simpa using h

theorem afterLastNl_length_lt {w : List Char} (h : w.contains '\n' = true) :
    (afterLastNl w).length < w.length := by
  unfold afterLastNl
  rw [List.length_reverse]
  have hmem : '\n' ∈ w.reverse := List.mem_reverse.mpr (contains_nl_mem h)
  have := takeWhile_length_lt_of_mem hmem (p := fun c => decide (c ≠ '\n')) (by simp)
  simpa using this

theorem takeWhile_dropWhile_length (p : Char → Bool) (l : List Char) :
    (l.takeWhile p).length + (l.dropWhile p).length = l.length := by
  have := congrArg List.length (List.takeWhile_append_dropWhile p l)
  rwa [List.length_append] at this

theorem collapseGo_fuel : ∀ (f g : Nat) (cs : List Char),
    cs.length ≤ f → cs.length ≤ g → collapseGo f cs = collapseGo g cs := by
  intro f
  induction f with
  | zero =>
    intro g cs hf _
    rw [List.length_eq_zero.mp (Nat.le_zero.mp hf)]
    rw [collapseGo_nil, collapseGo_nil]
  | succ f ih =>
    intro g cs hf hg
    cases cs with
    | nil => rw [collapseGo_nil, collapseGo_nil]
    | cons c cs' =>
      rw [List.length_cons] at hf hg
      cases g with
      | zero => omega
      | succ g' =>
        by_cases hc : c = '\n'
        · subst hc
          by_cases hw : (cs'.takeWhile isPyWs).contains '\n' = true
          · have hlen : (afterLastNl (cs'.takeWhile isPyWs) ++
                cs'.dropWhile isPyWs).length < cs'.length := by
              rw [List.length_append]
              have h1 := afterLastNl_length_lt hw
              have h2 := takeWhile_dropWhile_length isPyWs cs'
              omega
            have e1 : collapseGo (f + 1) ('\n' :: cs') =
                '\n' :: '\n' :: collapseGo f (afterLastNl (cs'.takeWhile isPyWs) ++
                  cs'.dropWhile isPyWs) := by
              show (if '\n' = '\n' then _ else _) = _
              rw [if_pos rfl]
              simp only []
              rw [hw]
              rfl
            have e2 : collapseGo (g' + 1) ('\n' :: cs') =
                '\n' :: '\n' :: collapseGo g' (afterLastNl (cs'.takeWhile isPyWs) ++
                  cs'.dropWhile isPyWs) := by
              show (if '\n' = '\n' then _ else _) = _
              rw [if_pos rfl]
              simp only []
              rw [hw]
              rfl
            rw [e1, e2, ih g' _ (by omega) (by omega)]
          · have e1 : collapseGo (f + 1) ('\n' :: cs') = '\n' :: collapseGo f cs' := by
              show (if '\n' = '\n' then _ else _) = _
              rw [if_pos rfl]
              simp only []
              rw [Bool.eq_false_iff.mpr hw]
              rfl
            have e2 : collapseGo (g' + 1) ('\n' :: cs') = '\n' :: collapseGo g' cs' := by
              show (if '\n' = '\n' then _ else _) = _
              rw [if_pos rfl]
              simp only []
              rw [Bool.eq_false_iff.mpr hw]
              rfl
            rw [e1, e2, ih g' cs' (by omega) (by omega)]
        · have e1 : collapseGo (f + 1) (c :: cs') = c :: collapseGo f cs' := by
            show (if c = '\n' then _ else _) = _
            rw [if_neg hc]
          have e2 : collapseGo (g' + 1) (c :: cs') = c :: collapseGo g' cs' := by
            show (if c = '\n' then _ else _) = _
            rw [if_neg hc]
          rw [e1, e2, ih g' cs' (by omega) (by omega)]

theorem collapseL_nil : collapseL [] = [] := rfl

theorem collapseL_cons_ne (c : Char) (cs : List Char) (h : ¬ c = '\n') :
    collapseL (c :: cs) = c :: collapseL cs := by
  show collapseGo (cs.length + 1) (c :: cs) = c :: collapseL cs
  show (if c = '\n' then _ else _) = _
  rw [if_neg h]
  rfl

theorem collapseL_cons_nl_nomatch (cs : List Char)
    (hw : (cs.takeWhile isPyWs).contains '\n' = false) :
    collapseL ('\n' :: cs) = '\n' :: collapseL cs := by
  show collapseGo (cs.length + 1) ('\n' :: cs) = '\n' :: collapseL cs
  show (if '\n' = '\n' then _ else _) = _
  rw [if_pos rfl]
  simp only []
  rw [hw]
  rfl

theorem collapseL_cons_nl_match (cs : List Char)
    (hw : (cs.takeWhile isPyWs).contains '\n' = true) :
    collapseL ('\n' :: cs) =
      '\n' :: '\n' :: collapseL (afterLastNl (cs.takeWhile isPyWs) ++
        cs.dropWhile isPyWs) := by
  show collapseGo (cs.length + 1) ('\n' :: cs) = _
  have e1 : collapseGo (cs.length + 1) ('\n' :: cs) =
      '\n' :: '\n' :: collapseGo cs.length (afterLastNl (cs.takeWhile isPyWs) ++
        cs.dropWhile isPyWs) := by
    show (if '\n' = '\n' then _ else _) = _
    rw [if_pos rfl]
    simp only []
    rw [hw]
    rfl
  rw [e1]
  have hlen : (afterLastNl (cs.takeWhile isPyWs) ++ cs.dropWhile isPyWs).length ≤
      cs.length := by
    rw [List.length_append]
    have h1 := afterLastNl_length_lt hw
    have h2 := takeWhile_dropWhile_length isPyWs cs
    omega
  unfold collapseL
  rw [collapseGo_fuel cs.length _ _ hlen (Nat.le_refl _)]

theorem collapseL_append_copy (p t : List Char) (h : ∀ c ∈ p, ¬ c = '\n') :
    collapseL (p ++ t) = p ++ collapseL t := by
  induction p with
  | nil => simp
  | cons c p' ih =>
    rw [List.cons_append, collapseL_cons_ne c _ (h c (List.mem_cons_self c p')),
      ih (fun d hd => h d (List.mem_cons_of_mem c hd)), List.cons_append]

theorem collapseL_head_not_ws (r : List Char)
    (h : ∀ c, r.head? = some c → isPyWs c = false) :
    (collapseL r).takeWhile isPyWs = [] ∧ (collapseL r).dropWhile isPyWs = collapseL r := by
  cases r with
  | nil => exact ⟨rfl, rfl⟩
  | cons c r' =>
    have hc : isPyWs c = false := h c rfl
    have hcn : ¬ c = '\n' := by
      intro hcc
      rw [hcc] at hc
      exact absurd hc (by decide)
    rw [collapseL_cons_ne c r' hcn]
    constructor
    · rw [List.takeWhile_cons_of_neg (by rw [hc]; simp)]
    · rw [List.dropWhile_cons_of_neg (by rw [hc]; simp)]

theorem dropWhile_head_not_ws (cs : List Char) :
    ∀ c, (cs.dropWhile isPyWs).head? = some c → isPyWs c = false := by
  intro c hc
  cases hr : cs.dropWhile isPyWs with
  | nil => rw [hr] at hc; simp at hc
  | cons d t =>
    rw [hr] at hc
    simp only [List.head?_cons, Option.some.injEq] at hc
    exact hc ▸ dropWhile_head_false hr

theorem collapseL_idem_n : ∀ (n : Nat) (cs : List Char), cs.length ≤ n →
    collapseL (collapseL cs) = collapseL cs := by
  intro n
  induction n with
  | zero =>
    intro cs h
    rw [List.length_eq_zero.mp (Nat.le_zero.mp h)]
    rfl
  | succ n ih =>
    intro cs h
    cases cs with
    | nil => rfl
    | cons c cs' =>
      rw [List.length_cons] at h
      have hcs' : cs'.length ≤ n := by omega
      by_cases hc : c = '\n'
      · subst hc
        have hsplit : cs'.takeWhile isPyWs ++ cs'.dropWhile isPyWs = cs' :=
          List.takeWhile_append_dropWhile isPyWs cs'
        have hrlen : (cs'.dropWhile isPyWs).length ≤ n := by
          have := takeWhile_dropWhile_length isPyWs cs'
          omega
        have hrh := dropWhile_head_not_ws cs'
        have hhead := collapseL_head_not_ws _ hrh
        by_cases hw : (cs'.takeWhile isPyWs).contains '\n' = true
        · have hane : ∀ d ∈ afterLastNl (cs'.takeWhile isPyWs), ¬ d = '\n' := by
            intro d hd hdd
            exact afterLastNl_no_nl _ (hdd ▸ hd)
          have haws : ∀ d ∈ afterLastNl (cs'.takeWhile isPyWs), isPyWs d = true :=
            fun d hd => mem_takeWhile_pred (mem_afterLastNl hd)
          rw [collapseL_cons_nl_match cs' hw]
          have hX : collapseL (afterLastNl (cs'.takeWhile isPyWs) ++
              cs'.dropWhile isPyWs) =
              afterLastNl (cs'.takeWhile isPyWs) ++ collapseL (cs'.dropWhile isPyWs) :=
            collapseL_append_copy _ _ hane
          rw [hX]
          have htw : (('\n' :: (afterLastNl (cs'.takeWhile isPyWs) ++
              collapseL (cs'.dropWhile isPyWs))).takeWhile isPyWs) =
              '\n' :: afterLastNl (cs'.takeWhile isPyWs) := by
            rw [List.takeWhile_cons_of_pos (by decide)]
            rw [List.takeWhile_append_of_pos haws, hhead.1, List.append_nil]
          have hcont : (('\n' :: (afterLastNl (cs'.takeWhile isPyWs) ++
              collapseL (cs'.dropWhile isPyWs))).takeWhile isPyWs).contains '\n' =
              true := by
            rw [htw]
            simp
          rw [collapseL_cons_nl_match _ hcont]
          rw [show ('\n' :: (afterLastNl (cs'.takeWhile isPyWs) ++
              collapseL (cs'.dropWhile isPyWs))).takeWhile isPyWs =
              '\n' :: afterLastNl (cs'.takeWhile isPyWs) from htw]
          rw [afterLastNl_cons_nl _ (afterLastNl_no_nl _)]
          have hdw : (('\n' :: (afterLastNl (cs'.takeWhile isPyWs) ++
              collapseL (cs'.dropWhile isPyWs))).dropWhile isPyWs) =
              collapseL (cs'.dropWhile isPyWs) := by
            rw [List.dropWhile_cons_of_pos (by decide)]
            rw [List.dropWhile_append_of_pos haws, hhead.2]
          rw [hdw]
          rw [collapseL_append_copy _ _ hane]
          rw [ih (cs'.dropWhile isPyWs) hrlen]
        · have hw' : (cs'.takeWhile isPyWs).contains '\n' = false :=
            Bool.eq_false_iff.mpr hw
          have hnm : '\n' ∉ cs'.takeWhile isPyWs := by
            intro hm
            rw [show (cs'.takeWhile isPyWs).contains '\n' = true by simpa using hm] at hw'
            exact absurd hw' (by simp)
          have hnn : ∀ d ∈ cs'.takeWhile isPyWs, ¬ d = '\n' :=
            fun d hd hdd => hnm (hdd ▸ hd)
          have hws : ∀ d ∈ cs'.takeWhile isPyWs, isPyWs d = true :=
            fun d hd => mem_takeWhile_pred hd
          rw [collapseL_cons_nl_nomatch cs' hw']
          have hcopy : collapseL cs' =
              cs'.takeWhile isPyWs ++ collapseL (cs'.dropWhile isPyWs) := by
            conv_lhs => rw [← hsplit]
            exact collapseL_append_copy _ _ hnn
          rw [hcopy]
          have htw2 : ((cs'.takeWhile isPyWs ++
              collapseL (cs'.dropWhile isPyWs)).takeWhile isPyWs) =
              cs'.takeWhile isPyWs := by
            rw [List.takeWhile_append_of_pos hws, hhead.1, List.append_nil]
          have hw2 : ((cs'.takeWhile isPyWs ++
              collapseL (cs'.dropWhile isPyWs)).takeWhile isPyWs).contains '\n' =
              false := by
            rw [htw2]
            exact hw'
          rw [collapseL_cons_nl_nomatch _ hw2]
          rw [collapseL_append_copy _ _ hnn]
          rw [ih (cs'.dropWhile isPyWs) hrlen]
      · rw [collapseL_cons_ne c cs' hc, collapseL_cons_ne c _ hc, ih cs' hcs']

theorem collapseL_idem (cs : List Char) : collapseL (collapseL cs) = collapseL cs :=
  collapseL_idem_n cs.length cs (Nat.le_refl _)

/-! ## Claim C2 -/

theorem clean_eq_collapse (s : String) (h1 : '#' ∉ s.toList)
    (h2 : lbrace ∉ s.toList) : clean s = String.mk (collapseL s.toList) := by
  have h1' : '#' ∉ collapseL s.toList := by
    intro hm
    rcases collapseGo_subset _ _ _ hm with hh | hh
    · exact h1 hh
    · exact absurd hh (by decide)
  unfold clean
  simp only []
  rw [subWrapGo_id _ _ _ h2, subCaretGo_id _ _ _ h1]
  rw [show collapseGo s.toList.length s.toList = collapseL s.toList from rfl]
  rw [subHeadingGo_id _ _ _ h1', subEmptyGo_id _ _ _ h1']

/-- Claim C2 counterexample: `clean` is not idempotent.  At
`# a\n#\n#\nb` the blank-line inserted after the heading and the removal
of the two empty headings leave a triple newline that only a second
application collapses: `clean` gives `# a\n\n\nb` but `clean ∘ clean`
gives `# a\n\nb`. -/
theorem clean_not_idempotent :
    clean (clean "# a\n#\n#\nb") ≠ clean "# a\n#\n#\nb" := by decide

/-- Claim C2 (amended): `clean` is idempotent on every text containing
no `#` and no `\x7b` character (texts on which the wrap-marker,
bare-heading-marker, heading and empty-heading passes are inert, leaving
only the blank-line collapse, which is idempotent); on general text
idempotence fails because removing empty headings can create a new
blank-line run that only a second pass collapses. -/
theorem clean_idempotent_no_marks (s : String) (h1 : '#' ∉ s.toList)
    (h2 : lbrace ∉ s.toList) : clean (clean s) = clean s := by
  have h1' : '#' ∉ collapseL s.toList := by
    intro hm
    rcases collapseGo_subset _ _ _ hm with hh | hh
    · exact h1 hh
    · exact absurd hh (by decide)
  have h2' : lbrace ∉ collapseL s.toList := by
    intro hm
    rcases collapseGo_subset _ _ _ hm with hh | hh
    · exact h2 hh
    · exact absurd hh (by decide)
  have e1 : clean s = String.mk (collapseL s.toList) := clean_eq_collapse s h1 h2
  have e2 : clean (String.mk (collapseL s.toList)) =
      String.mk (collapseL (collapseL s.toList)) :=
    clean_eq_collapse (String.mk (collapseL s.toList)) h1' h2'
  rw [e1, e2, collapseL_idem]

/-- Witness for the amended C2 at a marker-free text with a blank-line
run. -/
theorem clean_idempotent_no_marks_witness :
    '#' ∉ "a\n\n\nb".toList ∧ lbrace ∉ "a\n\n\nb".toList ∧
    clean (clean "a\n\n\nb") = clean "a\n\n\nb" :=
  ⟨by decide, by decide, clean_idempotent_no_marks "a\n\n\nb" (by decide) (by decide)⟩
